import Mathlib

/-!
# Verification of the web3insights ingestion engine

Shallow embedding of the resumable parquet-to-TiDB ingestion engine of
`siddontang/web3insights`, translated from:

* `internal/tidb/btc.go`   — record loaders, batch assembly, SQL building
* `internal/tidb/retry.go` — retry executor with linear backoff
* `cmd/sync/main.go`       — ingestion driver (per-file state saves, error policy)
* the `sync` status package — resumption state (`Status`, `LoadStatus`, `IsComplete`)
* the `chain` package      — record types (`BtcBlock`, `BtcTransaction`, children)

External capabilities are abstracted as the spec prescribes:

* the columnar reader is "an ordered, seekable, finite sequence of typed
  records plus a total row count": a file is a `List` of records; a read of up
  to `b` rows takes the first `min b remaining` rows and signals end-of-data
  exactly when fewer than `b` rows were available;
* the relational store is a sink: what the embedding records about each write
  is the event it produces (prepared-statement or direct, entity kind, row
  count); the argument vectors handed to the store are modelled separately
  (`batchInsertWithStmt`, `directInsert` below).

Loader runs are modelled as the trace of observable events they produce
(seeks, reads, writes, progress callbacks), which is what the claims about
batching, progress accounting and resumption quantify over.
-/

/-- Entity kinds the loaders write: blocks, transactions, transaction inputs,
transaction outputs. -/
inductive EntityKind where
  | block
  | tx
  | input
  | output
deriving DecidableEq, Repr

/-- Observable events of one loader run over a single file. -/
inductive Ev where
  /-- Event: `reader.SeekToRow(row)` was attempted. -/
  | seek (row : Nat)
  /-- one `reader.Read` call returned `n` rows. -/
  | read (n : Nat)
  /-- a prepared-statement batch write of `n` rows of kind `k`
  (`batchInsertWithStmt`). -/
  | prepared (k : EntityKind) (n : Nat)
  /-- a direct (non-prepared) write of `n` rows of kind `k` (`directInsert`). -/
  | direct (k : EntityKind) (n : Nat)
  /-- the progress callback was invoked with `(cursor, total)`. -/
  | progress (cursor : Nat) (total : Nat)
deriving DecidableEq, Repr

/-- Sizes of the prepared-statement writes of kind `k`, in order. -/
def preparedSizes (k : EntityKind) (evs : List Ev) : List Nat :=
  evs.filterMap fun e =>
    match e with
    | .prepared k' n => if k' = k then some n else none
    | _ => none

/-- Sizes of the direct writes of kind `k`, in order. -/
def directSizes (k : EntityKind) (evs : List Ev) : List Nat :=
  evs.filterMap fun e =>
    match e with
    | .direct k' n => if k' = k then some n else none
    | _ => none

/-- Cursor values passed to the progress callback, in order. -/
def cursors (evs : List Ev) : List Nat :=
  evs.filterMap fun e =>
    match e with
    | .progress c _ => some c
    | _ => none

/-- Each progress invocation paired with the number of rows of kind `k`
committed (written via either path) strictly before it: entries are
`(cursor, total, committedSoFar)`.  `acc` is the rows committed before the
events under scrutiny. -/
def progressAudit (k : EntityKind) (evs : List Ev) (acc : Nat) :
    List (Nat × Nat × Nat) :=
  match evs with
  | [] => []
  | .prepared k' n :: rest =>
      progressAudit k rest (if k' = k then acc + n else acc)
  | .direct k' n :: rest =>
      progressAudit k rest (if k' = k then acc + n else acc)
  | .progress c t :: rest => (c, t, acc) :: progressAudit k rest acc
  | _ :: rest => progressAudit k rest acc

/-- The read/write/progress loop of `insertBlocksFromFile` (btc.go:321-366),
over the rows not yet read, the running row cursor `cursor` (`totalRows` in
the source, initialised to the resumption start), and the file's total row
count `total`.  Events of the post-loop remainder handling are appended at
the break point. -/
def blocksLoop (batchSize : Nat) (rows : List α) (cursor total : Nat) :
    List Ev :=
  if _hb : batchSize = 0 then []
  else
    let n := min rows.length batchSize
    Ev.read n ::
      (if n < batchSize then
        -- loop break; remainder handling (btc.go:352-366)
        if 0 < n then
          [Ev.direct .block n, Ev.progress (cursor + n) total]
        else []
      else
        Ev.prepared .block batchSize ::
          Ev.progress (cursor + batchSize) total ::
            blocksLoop batchSize (rows.drop batchSize) (cursor + batchSize)
              total)
termination_by rows.length
decreasing_by
  simp only [List.length_drop]
  omega

/-- Model of `insertBlocksFromFile` (btc.go:266-369): opens the file, seeks to
`startRow` when resuming (`seekOk` is the environment's answer to the single
`SeekToRow` call; on failure the function returns the error immediately),
then runs the read/insert loop.  Result: the event trace and whether the run
returned success. -/
def insertBlocksFromFile (batchSize : Nat) (file : List α) (startRow : Nat)
    (seekOk : Bool) : List Ev × Bool :=
  let numRows := file.length
  if 0 < startRow then
    if seekOk then
      (Ev.seek startRow ::
        blocksLoop batchSize (file.drop startRow) startRow numRows, true)
    else ([Ev.seek startRow], false)
  else (blocksLoop batchSize file 0 numRows, true)

/-!
## Record types (`internal/chain`, part of the repo's `chain` package)

Scalar field values are inert payload for the claims at hand (they are only
carried into SQL argument vectors, never computed on), so:

* Go `int64`/`int32` fields are `Int`;
* Go `float64` fields are `F64`, an opaque wrapper around the IEEE-754 bit
  pattern — no floating-point arithmetic occurs anywhere in the embedded code;
* Go `time.Time` values are `GoTime`, distinguishing the zero time (`IsZero`)
  from a value parsed out of a `YYYY-MM-DD` date string or converted from an
  int96 parquet timestamp (the Julian-day arithmetic of `jdToTime` is
  abstracted into the `fromInt96` payload).
-/

/-- Inert stand-in for a Go `float64`: the raw bit pattern. -/
structure F64 where
  bits : Nat
deriving DecidableEq, Repr, Inhabited

/-- Stand-in for Go `time.Time` as used by the extract functions. -/
inductive GoTime where
  /-- The zero value `time.Time{}`, for which `IsZero()` is true. -/
  | zero
  /-- result of `time.Parse("2006-01-02", s)` on success. -/
  | fromDate (y m d : Nat)
  /-- result of `jdToTime(days, nano)` for a non-zero int96 timestamp. -/
  | fromInt96 (days nano : Nat)
deriving DecidableEq, Repr, Inhabited

/-- Model of `chain.Int96Timestamp`: 12 bytes holding nanoseconds (first 8 bytes) and
Julian days (last 4 bytes), already decoded to the two integers. -/
structure Int96Timestamp where
  nano : Nat
  days : Nat
deriving DecidableEq, Repr, Inhabited

/-- Model of `Int96Timestamp.Time()`: the zero value maps to the zero time, anything
else to the converted timestamp. -/
def Int96Timestamp.Time (t : Int96Timestamp) : GoTime :=
  if t.days = 0 ∧ t.nano = 0 then .zero else .fromInt96 t.days t.nano

/-- The call `time.Parse("2006-01-02", s)` modelled as a concrete `YYYY-MM-DD`
parser: ten characters, dashes at positions 4 and 7, all other characters
digits, month and day in calendar range. -/
def timeParseDate (s : String) : Option (Nat × Nat × Nat) :=
  match s.toList with
  | [y1, y2, y3, y4, c1, m1, m2, c2, d1, d2] =>
    if c1 = '-' ∧ c2 = '-' ∧ y1.isDigit ∧ y2.isDigit ∧ y3.isDigit ∧
        y4.isDigit ∧ m1.isDigit ∧ m2.isDigit ∧ d1.isDigit ∧ d2.isDigit then
      let y := ((y1.toNat - 48) * 10 + (y2.toNat - 48)) * 100 +
        (y3.toNat - 48) * 10 + (y4.toNat - 48)
      let m := (m1.toNat - 48) * 10 + (m2.toNat - 48)
      let d := (d1.toNat - 48) * 10 + (d2.toNat - 48)
      if 1 ≤ m ∧ m ≤ 12 ∧ 1 ≤ d ∧ d ≤ 31 then some (y, m, d) else none
    else none
  | _ => none

/-- The `date, err := time.Parse(...)` / `if err != nil { date = time.Time{} }`
prologue shared by the extract functions and `collectTransactionData`. -/
def parseRecordDate (s : String) : GoTime :=
  match timeParseDate s with
  | some (y, m, d) => .fromDate y m d
  | none => .zero

/-- Model of `chain.BtcBlock`. -/
structure BtcBlock where
  Date : String
  Hash : String
  Size : Int
  StrippedSize : Int
  Weight : Int
  Number : Int
  Version : Int
  MerkleRoot : String
  Timestamp : Int96Timestamp
  Nonce : Int
  Bits : String
  CoinbaseParam : String
  TransactionCount : Int
  Mediantime : Int96Timestamp
  Difficulty : F64
  Chainwork : String
  Previousblockhash : String
deriving DecidableEq, Repr, Inhabited

/-- Model of `chain.BtcTransactionInput`. -/
structure BtcTransactionInput where
  SpentTransactionHash : String
  SpentOutputIndex : Int
  ScriptAsm : String
  ScriptHex : String
  Sequence : Int
  RequiredSignatures : Int
  «Type» : String
  Address : String
  Value : F64
deriving DecidableEq, Repr, Inhabited

/-- Model of `chain.BtcTransactionOutput`. -/
structure BtcTransactionOutput where
  ScriptAsm : String
  ScriptHex : String
  RequiredSignatures : Int
  «Type» : String
  Address : String
  Value : F64
deriving DecidableEq, Repr, Inhabited

/-- Model of `chain.BtcTransaction`. -/
structure BtcTransaction where
  Date : String
  Hash : String
  Size : Int
  VirtualSize : Int
  Version : Int
  LockTime : Int
  BlockHash : String
  BlockNumber : Int
  BlockTimestamp : Int96Timestamp
  Index : Int
  InputCount : Int
  OutputCount : Int
  InputValue : F64
  OutputValue : F64
  IsCoinbase : Bool
  Fee : F64
  Inputs : List BtcTransactionInput
  Outputs : List BtcTransactionOutput
deriving DecidableEq, Repr, Inhabited

/-- Model of `tidb.inputRow`: a row destined for `btc_transaction_inputs`. -/
structure inputRow where
  recordDate : GoTime
  transactionHash : String
  inputIndex : Int
  spentTxHash : String
  spentOutputIndex : Int
  scriptAsm : String
  scriptHex : String
  sequence : Int
  requiredSigs : Int
  inputType : String
  address : String
  spentValue : F64
deriving DecidableEq, Repr, Inhabited

/-- Model of `tidb.outputRow`: a row destined for `btc_transaction_outputs`. -/
structure outputRow where
  recordDate : GoTime
  transactionHash : String
  outputIndex : Int
  scriptAsm : String
  scriptHex : String
  requiredSigs : Int
  outputType : String
  address : String
  outputAmount : F64
deriving DecidableEq, Repr, Inhabited

/-- A value handed to the SQL driver as one bound argument. -/
inductive SqlValue where
  | null
  | str (v : String)
  | int (v : Int)
  | float (v : F64)
  | boolean (v : Bool)
  | time (v : GoTime)
deriving DecidableEq, Repr

/-!
## SQL building and argument extraction (btc.go:46-112, 150-264)
-/

/-- Model of `buildValuesSQL` (btc.go:47-66): a VALUES clause with `rowCount` rows of
`placeholderCount` placeholders each. -/
def buildValuesSQL (rowCount placeholderCount : Nat) : String :=
  if rowCount = 0 then ""
  else
    let placeholderSlice := List.replicate placeholderCount "?"
    let placeholders := String.intercalate ", " placeholderSlice
    let rowPlaceholder := "(" ++ placeholders ++ ")"
    let rowSlice := List.replicate rowCount rowPlaceholder
    String.intercalate ", " rowSlice

/-- Number of `?` placeholders in a SQL fragment. -/
def countPlaceholders (s : String) : Nat :=
  s.toList.count '?'

/-- Model of `extractBlockArgs` (btc.go:151-193): the 17 bound arguments for one
block row, in column order. -/
def extractBlockArgs (block : BtcBlock) : List SqlValue :=
  let date := parseRecordDate block.Date
  let timestamp : SqlValue :=
    match block.Timestamp.Time with
    | .zero => .null
    | t => .time t
  let mediantime : SqlValue :=
    match block.Mediantime.Time with
    | .zero => .null
    | t => .time t
  [.time date,
    .str block.Hash,
    .int block.Size,
    .int block.StrippedSize,
    .int block.Weight,
    .int block.Number,
    .int block.Version,
    .str block.MerkleRoot,
    timestamp,
    .int block.Nonce,
    .str block.Bits,
    .str block.CoinbaseParam,
    .int block.TransactionCount,
    mediantime,
    .float block.Difficulty,
    .str block.Chainwork,
    .str block.Previousblockhash]

/-- Model of `extractTransactionArgs` (btc.go:196-231): the 16 bound arguments for
one transaction row. -/
def extractTransactionArgs (tx : BtcTransaction) : List SqlValue :=
  let date := parseRecordDate tx.Date
  let blockTimestamp : SqlValue :=
    match tx.BlockTimestamp.Time with
    | .zero => .null
    | t => .time t
  [.time date,
    .str tx.Hash,
    .int tx.Size,
    .int tx.VirtualSize,
    .int tx.Version,
    .int tx.LockTime,
    .str tx.BlockHash,
    .int tx.BlockNumber,
    blockTimestamp,
    .int tx.Index,
    .int tx.InputCount,
    .int tx.OutputCount,
    .float tx.InputValue,
    .float tx.OutputValue,
    .boolean tx.IsCoinbase,
    .float tx.Fee]

/-- Model of `extractInputArgs` (btc.go:234-249): the 12 bound arguments for one
input row. -/
def extractInputArgs (input : inputRow) : List SqlValue :=
  [.time input.recordDate,
    .str input.transactionHash,
    .int input.inputIndex,
    .str input.spentTxHash,
    .int input.spentOutputIndex,
    .str input.scriptAsm,
    .str input.scriptHex,
    .int input.sequence,
    .int input.requiredSigs,
    .str input.inputType,
    .str input.address,
    .float input.spentValue]

/-- Model of `extractOutputArgs` (btc.go:252-264): the 9 bound arguments for one
output row. -/
def extractOutputArgs (output : outputRow) : List SqlValue :=
  [.time output.recordDate,
    .str output.transactionHash,
    .int output.outputIndex,
    .str output.scriptAsm,
    .str output.scriptHex,
    .int output.requiredSigs,
    .str output.outputType,
    .str output.address,
    .float output.outputAmount]

/-- Model of `batchInsertWithStmt` (btc.go:72-89), represented by the flattened argument
vector it hands to `stmt.Exec`: the concatenation of `extractArgs` over the
items, in order. -/
def batchInsertWithStmt (items : List T) (extractArgs : T → List SqlValue) :
    List SqlValue :=
  items.flatMap extractArgs

/-- Model of `directInsert` (btc.go:92-112), represented by the SQL text and the
flattened argument vector it hands to `db.Exec`. -/
def directInsert (baseSQL : String) (items : List T)
    (extractArgs : T → List SqlValue) (placeholderCount : Nat) :
    String × List SqlValue :=
  (baseSQL ++ buildValuesSQL items.length placeholderCount,
    items.flatMap extractArgs)

/-- Model of `collectTransactionData` (btc.go:544-584): append every transaction's
inputs and outputs, denormalized and indexed by their array position, to the
running buffers. -/
def collectTransactionData (transactions : List BtcTransaction)
    (allInputs : List inputRow) (allOutputs : List outputRow) :
    List inputRow × List outputRow :=
  match transactions with
  | [] => (allInputs, allOutputs)
  | tx :: rest =>
    let date := parseRecordDate tx.Date
    let ins := allInputs ++ tx.Inputs.enum.map fun p =>
      { recordDate := date
        transactionHash := tx.Hash
        inputIndex := (p.1 : Int)
        spentTxHash := p.2.SpentTransactionHash
        spentOutputIndex := p.2.SpentOutputIndex
        scriptAsm := p.2.ScriptAsm
        scriptHex := p.2.ScriptHex
        sequence := p.2.Sequence
        requiredSigs := p.2.RequiredSignatures
        inputType := p.2.«Type»
        address := p.2.Address
        spentValue := p.2.Value }
    let outs := allOutputs ++ tx.Outputs.enum.map fun p =>
      { recordDate := date
        transactionHash := tx.Hash
        outputIndex := (p.1 : Int)
        scriptAsm := p.2.ScriptAsm
        scriptHex := p.2.ScriptHex
        requiredSigs := p.2.RequiredSignatures
        outputType := p.2.«Type»
        address := p.2.Address
        outputAmount := p.2.Value }
    collectTransactionData rest ins outs

/-!
## Transactions loader (`insertTransactionsFromFile`, btc.go:371-541)

Same chunked skeleton as the blocks loader, with three differences taken
from the source:

* the prepared parent write fires only when the chunk is exactly full
  (`len(pendingTxs) == batchSize`, btc.go:470);
* child rows are accumulated across chunks and flushed in `while`-loops
  whenever a buffer holds at least its batch size (btc.go:478-494);
* `totalRows += n` and the progress callback run on *every* iteration, the
  final partial one included (btc.go:496-505), and after the loop the
  leftover transactions are direct-inserted with `totalRows` increased *again*
  by their count (btc.go:513-517) before the unconditional final callback
  (btc.go:534-538).

A zero parent batch size is outside the source's defined behaviour (the loop
would never terminate), as is a zero child batch size (the `while` flush
loop would never terminate); the embedding returns early there and the
theorems assume positive sizes, as the claims do.
-/

/-- One child-buffer `while` flush loop (btc.go:477-494): while the buffer
holds at least `batchSize` rows, slice off exactly `batchSize` for a
prepared write.  Returns the flush events and the retained remainder. -/
def flushLoop (k : EntityKind) (batchSize : Nat) (buf : List γ) :
    List Ev × List γ :=
  if _h : batchSize = 0 ∨ buf.length < batchSize then ([], buf)
  else
    let r := flushLoop k batchSize (buf.drop batchSize)
    (Ev.prepared k batchSize :: r.1, r.2)
termination_by buf.length
decreasing_by
  simp only [List.length_drop]
  omega

/-- The read/collect/write/progress loop of `insertTransactionsFromFile`
(btc.go:461-538), over the rows not yet read, the child-row buffers carried
across chunks, the running cursor and the file's total row count.  Events of
the post-loop remainder handling are appended at the break point. -/
def txLoop (batchSize inputBatchSize outputBatchSize : Nat)
    (rows : List BtcTransaction) (pendingInputs : List inputRow)
    (pendingOutputs : List outputRow) (cursor total : Nat) : List Ev :=
  if _hb : batchSize = 0 then []
  else
    let pendingTxs := rows.take batchSize
    let n := min rows.length batchSize
    let collected := collectTransactionData pendingTxs pendingInputs
      pendingOutputs
    let txEvs : List Ev :=
      if n = batchSize then [Ev.prepared .tx batchSize] else []
    let inFlush := flushLoop .input inputBatchSize collected.1
    let outFlush := flushLoop .output outputBatchSize collected.2
    Ev.read n ::
      (txEvs ++ inFlush.1 ++ outFlush.1 ++
        (Ev.progress (cursor + n) total ::
          (if n < batchSize then
            -- loop break; post-loop remainder handling (btc.go:512-538);
            -- note `totalRows` grows by `n` a second time when leftover
            -- transactions exist
            (if 0 < n then [Ev.direct .tx n] else []) ++
              (if 0 < inFlush.2.length then
                [Ev.direct .input inFlush.2.length] else []) ++
              (if 0 < outFlush.2.length then
                [Ev.direct .output outFlush.2.length] else []) ++
              [Ev.progress (cursor + n + n) total]
          else
            txLoop batchSize inputBatchSize outputBatchSize
              (rows.drop batchSize) inFlush.2 outFlush.2 (cursor + n) total)))
termination_by rows.length
decreasing_by
  simp only [List.length_drop]
  omega

/-- Model of `insertTransactionsFromFile` (btc.go:371-541): seek to `startRow` when
resuming (failure returns immediately), then run the loop with empty child
buffers.  Result: the event trace and whether the run returned success. -/
def insertTransactionsFromFile (batchSize inputBatchSize outputBatchSize : Nat)
    (file : List BtcTransaction) (startRow : Nat) (seekOk : Bool) :
    List Ev × Bool :=
  let numRows := file.length
  if 0 < startRow then
    if seekOk then
      (Ev.seek startRow ::
        txLoop batchSize inputBatchSize outputBatchSize (file.drop startRow)
          [] [] startRow numRows, true)
    else ([Ev.seek startRow], false)
  else
    (txLoop batchSize inputBatchSize outputBatchSize file [] [] 0 numRows,
      true)

/-!
## Child-row counting (`collectTransactionData`)
-/

/-- Total input rows denormalized out of a list of transactions. -/
def inputsCount (txs : List BtcTransaction) : Nat :=
  (txs.map fun tx => tx.Inputs.length).sum

/-- Total output rows denormalized out of a list of transactions. -/
def outputsCount (txs : List BtcTransaction) : Nat :=
  (txs.map fun tx => tx.Outputs.length).sum

/-!
## Resumption state (`sync` package: `Status`, `LoadStatus`, `SaveStatus`)
-/

/-- Model of `sync.Status`: per-file resumption record.  `UpdatedAt` (a wall-clock
stamp) is carried as an opaque integer. -/
structure Status where
  NumRows : Int
  LastRow : Int
  UpdatedAt : Int
deriving DecidableEq, Repr

/-- The Go zero value `sync.Status{}`. -/
def Status.zero : Status := ⟨0, 0, 0⟩

/-- Model of `Status.IsComplete`: `s.NumRows > 0 && s.LastRow >= s.NumRows`. -/
def Status.IsComplete (s : Status) : Bool :=
  decide (0 < s.NumRows) && decide (s.NumRows ≤ s.LastRow)

/-- What the filesystem holds at a status path, with the JSON codec
abstracted: a file is missing, unreadable for another reason, or holds
bytes that either unmarshal to a `Status` or fail to parse. -/
inductive StatusFile where
  /-- no file exists (`os.IsNotExist`). -/
  | missing
  /-- the read itself fails with some other error. -/
  | unreadable (msg : String)
  /-- the file exists; `some st` when `json.Unmarshal` yields `st`,
  `none` when it errors. -/
  | stored (parsed : Option Status)

/-- Model of `sync.LoadStatus`: missing file ⇒ zero-value status and no error; any
other read failure or a parse failure ⇒ error. -/
def LoadStatus : StatusFile → Except String Status
  | .missing => .ok Status.zero
  | .unreadable msg => .error ("failed to read status file: " ++ msg)
  | .stored (some st) => .ok st
  | .stored none => .error "failed to parse status file"

/-!
## Retry executor (`internal/tidb/retry.go`)

The operation under retry is modelled as a function from the attempt number
(1-based, as in the source) to that attempt's outcome.  A run is summarized
by the outcome, the number of invocations made, and the list of backoff
delays slept, in units where `baseDelay` is the source's `retryDelay`
(one second).
-/

/-- Constant `tidb.maxRetries`. -/
def maxRetries : Nat := 3

/-- Result summary of a retry loop execution. -/
structure RetryResult (T : Type) where
  value : Except String T
  attemptsMade : Nat
  delays : List Nat
deriving Repr

/-- The `for attempt := 1; attempt <= maxRetries` loop of
`retryWithBackoff`, structurally recursive on the remaining attempt budget
(`remaining = maxRetries - attempt + 1` at every call from the top).  On
failure of the final attempt the loop exits and the wrapped error names the
operation and `maxRetries`. -/
def retryAux (fn : Nat → Except String T) (operation : String)
    (baseDelay : Nat) (attempt : Nat) : Nat → RetryResult T
  | 0 =>
    -- loop exhausted (not reached when the budget matches `maxRetries`)
    ⟨.error (operation ++ " failed after " ++ toString maxRetries ++
      " attempts"), 0, []⟩
  | remaining + 1 =>
    match fn attempt with
    | .ok v => ⟨.ok v, 1, []⟩
    | .error e =>
      if remaining = 0 then
        -- attempt == maxRetries: no sleep, loop ends, wrapped error
        ⟨.error (operation ++ " failed after " ++ toString maxRetries ++
          " attempts: " ++ e), 1, []⟩
      else
        let r := retryAux fn operation baseDelay (attempt + 1) remaining
        ⟨r.value, r.attemptsMade + 1, baseDelay * attempt :: r.delays⟩

/-- Model of `tidb.retryWithBackoff` (retry.go:14-32). -/
def retryWithBackoff (fn : Nat → Except String T) (operation : String)
    (baseDelay : Nat) : RetryResult T :=
  retryAux fn operation baseDelay 1 maxRetries

/-- The loop of `retryWithBackoffNoReturn`, a verbatim sibling of
`retryAux` over an operation with no return value (`none` = success). -/
def retryNoReturnAux (fn : Nat → Option String) (operation : String)
    (baseDelay : Nat) (attempt : Nat) : Nat → RetryResult Unit
  | 0 =>
    ⟨.error (operation ++ " failed after " ++ toString maxRetries ++
      " attempts"), 0, []⟩
  | remaining + 1 =>
    match fn attempt with
    | none => ⟨.ok (), 1, []⟩
    | some e =>
      if remaining = 0 then
        ⟨.error (operation ++ " failed after " ++ toString maxRetries ++
          " attempts: " ++ e), 1, []⟩
      else
        let r := retryNoReturnAux fn operation baseDelay (attempt + 1)
          remaining
        ⟨r.value, r.attemptsMade + 1, baseDelay * attempt :: r.delays⟩

/-- Model of `tidb.retryWithBackoffNoReturn` (retry.go:35-52). -/
def retryWithBackoffNoReturn (fn : Nat → Option String)
    (operation : String) (baseDelay : Nat) : RetryResult Unit :=
  retryNoReturnAux fn operation baseDelay 1 maxRetries

/-!
## Ingestion driver (`cmd/sync/main.go`)

Two aspects the claims quantify over are modelled:

* the per-file save policy built around the wrapped progress callback
  (main.go:167-187 and 229-247): saves are driven by a batch counter and a
  fixed interval, with a final save only on the success path — on a loader
  error the walk callback returns the error immediately, before the
  "final save after file completion" line;
* the error policy of the outer loops (main.go:123-255): a file error
  aborts the directory walk, and the driver then exits
  (`os.Exit(1)`), so nothing after the failing file is attempted.
-/

/-- Constant `saveInterval` (main.go:80). -/
def saveInterval : Nat := 10

/-- The wrapped progress callback's save pattern (main.go:168-178): from a
batch counter `counter`, each callback `(row, numRows)` bumps the counter
and saves the updated status exactly when the new counter is a multiple of
`saveInterval`.  Returns the list of states saved. -/
def periodicSaves (counter : Nat) : List (Nat × Nat) → List (Nat × Nat)
  | [] => []
  | cb :: rest =>
    if (counter + 1) % saveInterval = 0 then
      cb :: periodicSaves (counter + 1) rest
    else
      periodicSaves (counter + 1) rest

/-- Per-file save behaviour of the driver (main.go:167-187): `initial` is
the `(LastRow, NumRows)` of the status loaded for the file, `callbacks` the
`(row, numRows)` arguments of the loader's progress invocations in order,
and `loaderOk` whether the loader returned nil.  Returns the list of states
saved: the periodic ones, then — only when the loader succeeded — the
unconditional final save of the last-written status. -/
def processFileSaves (initial : Nat × Nat) (callbacks : List (Nat × Nat))
    (loaderOk : Bool) : List (Nat × Nat) :=
  let periodic := periodicSaves 0 callbacks
  if loaderOk then
    periodic ++ [callbacks.getLast?.getD initial]
  else
    periodic

/-- One date's worth of work for the driver: the success/failure outcome of
each block-file load, then of each transaction-file load, in walk order.
(The download step and per-file skip logic are not in question here; files
listed are the ones the walk would attempt.) -/
structure DateOutcome where
  blockFiles : List Bool
  txFiles : List Bool

/-- One directory walk (main.go:135-188 / 197-250): file loads are
attempted in order; the callback returns the first error, which aborts the
walk.  Returns the outcomes of the loads actually attempted and whether the
walk completed without error. -/
def walkFiles : List Bool → List Bool × Bool
  | [] => ([], true)
  | ok :: rest =>
    if ok then
      let r := walkFiles rest
      (ok :: r.1, r.2)
    else ([ok], false)

/-- The driver's date loop (main.go:123-255): for each date, walk the block
files, `os.Exit(1)` on error; then walk the transaction files, `os.Exit(1)`
on error; then the next date.  Returns the outcomes of every file load
attempted before the run ended. -/
def runSync : List DateOutcome → List Bool
  | [] => []
  | d :: rest =>
    let rb := walkFiles d.blockFiles
    if rb.2 then
      let rt := walkFiles d.txFiles
      if rt.2 then
        rb.1 ++ rt.1 ++ runSync rest
      else
        rb.1 ++ rt.1
    else
      rb.1

/-- All file loads a run over `dates` would attempt if nothing failed, in
order. -/
def allFiles (dates : List DateOutcome) : List Bool :=
  dates.flatMap fun d => d.blockFiles ++ d.txFiles

/-!
## Spec-side comparison functions for the driver claims
-/

/-- Spec-side description of the driver save pattern: the callbacks indexed
from 1, keeping every index divisible by the save interval. -/
def indexedFrom (i : Nat) : List β → List (Nat × β)
  | [] => []
  | x :: xs => (i, x) :: indexedFrom (i + 1) xs

/-- Spec-side description of which file loads a run attempts: the leading
successful loads, plus the first failing one when there is one. -/
def attemptedSpec (l : List Bool) : List Bool :=
  l.takeWhile (fun ok => ok) ++ (l.dropWhile (fun ok => ok)).take 1

/-- A transaction with no input and no output children and empty scalar
fields, used as the parent record in concrete scenarios. -/
def emptyBtcTransaction : BtcTransaction :=
  { Date := "", Hash := "", Size := 0, VirtualSize := 0, Version := 0,
    LockTime := 0, BlockHash := "", BlockNumber := 0,
    BlockTimestamp := ⟨0, 0⟩, Index := 0, InputCount := 0, OutputCount := 0,
    InputValue := ⟨0⟩, OutputValue := ⟨0⟩, IsCoinbase := false, Fee := ⟨0⟩,
    Inputs := [], Outputs := [] }

/-!
# Theorems
-/
/-!
## Blocks loader (`insertBlocksFromFile`, btc.go:266-369)

The Go loop reads up to `batchSize` rows per call; when a read returns fewer
than `batchSize` rows (end of data) it breaks out, and the leftover rows are
committed by a direct write after the loop, followed by one progress call —
both only when the leftover is non-empty.  Inside the loop every full batch
is written via the prepared statement, the cursor advances by the batch
size, and the progress callback fires.

`batchSize = 0` is outside the source's defined behaviour (the Go loop would
never terminate); the embedding returns an empty trace there, and every
theorem below assumes `0 < batchSize` as the claims do.
-/

/-- Unfolding lemma for `blocksLoop` at a final, partial (possibly empty)
chunk: the loop breaks and the remainder is committed by one direct write. -/
theorem blocksLoop_last (batchSize : Nat) (rows : List α) (cursor total : Nat)
    (hb : 0 < batchSize) (h : rows.length < batchSize) :
    blocksLoop batchSize rows cursor total =
      Ev.read rows.length ::
        (if 0 < rows.length then
          [Ev.direct .block rows.length,
            Ev.progress (cursor + rows.length) total]
        else []) := by
  rw [blocksLoop]
  simp only [dif_neg (Nat.pos_iff_ne_zero.mp hb)]
  have hmin : min rows.length batchSize = rows.length := Nat.min_eq_left h.le
  simp [hmin, h]

/-- Unfolding lemma for `blocksLoop` at a full chunk: prepared write, cursor
advance, progress, continue. -/
theorem blocksLoop_step (batchSize : Nat) (rows : List α) (cursor total : Nat)
    (hb : 0 < batchSize) (h : batchSize ≤ rows.length) :
    blocksLoop batchSize rows cursor total =
      Ev.read batchSize :: Ev.prepared .block batchSize ::
        Ev.progress (cursor + batchSize) total ::
          blocksLoop batchSize (rows.drop batchSize) (cursor + batchSize)
            total := by
  rw [blocksLoop]
  simp only [dif_neg (Nat.pos_iff_ne_zero.mp hb)]
  have hmin : min rows.length batchSize = batchSize := Nat.min_eq_right h
  simp [hmin, Nat.not_lt.mpr (Nat.le_refl batchSize)]

/-!
## Trace-extractor simp lemmas
-/

theorem preparedSizes_nil (k : EntityKind) : preparedSizes k [] = [] := rfl

theorem preparedSizes_cons_read (k : EntityKind) (n : Nat) (evs : List Ev) :
    preparedSizes k (.read n :: evs) = preparedSizes k evs := rfl

theorem preparedSizes_cons_seek (k : EntityKind) (n : Nat) (evs : List Ev) :
    preparedSizes k (.seek n :: evs) = preparedSizes k evs := rfl

theorem preparedSizes_cons_progress (k : EntityKind) (c t : Nat)
    (evs : List Ev) :
    preparedSizes k (.progress c t :: evs) = preparedSizes k evs := rfl

theorem preparedSizes_cons_direct (k k' : EntityKind) (n : Nat)
    (evs : List Ev) :
    preparedSizes k (.direct k' n :: evs) = preparedSizes k evs := rfl

theorem preparedSizes_cons_prepared_self (k : EntityKind) (n : Nat)
    (evs : List Ev) :
    preparedSizes k (.prepared k n :: evs) = n :: preparedSizes k evs := by
  simp [preparedSizes]

theorem preparedSizes_cons_prepared_other (k k' : EntityKind) (n : Nat)
    (evs : List Ev) (h : k' ≠ k) :
    preparedSizes k (.prepared k' n :: evs) = preparedSizes k evs := by
  simp [preparedSizes, h]

theorem preparedSizes_append (k : EntityKind) (l₁ l₂ : List Ev) :
    preparedSizes k (l₁ ++ l₂) = preparedSizes k l₁ ++ preparedSizes k l₂ := by
  simp [preparedSizes]

theorem directSizes_nil (k : EntityKind) : directSizes k [] = [] := rfl

theorem directSizes_cons_read (k : EntityKind) (n : Nat) (evs : List Ev) :
    directSizes k (.read n :: evs) = directSizes k evs := rfl

theorem directSizes_cons_seek (k : EntityKind) (n : Nat) (evs : List Ev) :
    directSizes k (.seek n :: evs) = directSizes k evs := rfl

theorem directSizes_cons_progress (k : EntityKind) (c t : Nat)
    (evs : List Ev) :
    directSizes k (.progress c t :: evs) = directSizes k evs := rfl

theorem directSizes_cons_prepared (k k' : EntityKind) (n : Nat)
    (evs : List Ev) :
    directSizes k (.prepared k' n :: evs) = directSizes k evs := rfl

theorem directSizes_cons_direct_self (k : EntityKind) (n : Nat)
    (evs : List Ev) :
    directSizes k (.direct k n :: evs) = n :: directSizes k evs := by
  simp [directSizes]

theorem directSizes_cons_direct_other (k k' : EntityKind) (n : Nat)
    (evs : List Ev) (h : k' ≠ k) :
    directSizes k (.direct k' n :: evs) = directSizes k evs := by
  simp [directSizes, h]

theorem directSizes_append (k : EntityKind) (l₁ l₂ : List Ev) :
    directSizes k (l₁ ++ l₂) = directSizes k l₁ ++ directSizes k l₂ := by
  simp [directSizes]

theorem cursors_nil : cursors [] = [] := rfl

theorem cursors_cons_read (n : Nat) (evs : List Ev) :
    cursors (.read n :: evs) = cursors evs := rfl

theorem cursors_cons_seek (n : Nat) (evs : List Ev) :
    cursors (.seek n :: evs) = cursors evs := rfl

theorem cursors_cons_prepared (k : EntityKind) (n : Nat) (evs : List Ev) :
    cursors (.prepared k n :: evs) = cursors evs := rfl

theorem cursors_cons_direct (k : EntityKind) (n : Nat) (evs : List Ev) :
    cursors (.direct k n :: evs) = cursors evs := rfl

theorem cursors_cons_progress (c t : Nat) (evs : List Ev) :
    cursors (.progress c t :: evs) = c :: cursors evs := rfl

theorem cursors_append (l₁ l₂ : List Ev) :
    cursors (l₁ ++ l₂) = cursors l₁ ++ cursors l₂ := by
  simp [cursors]

/-!
## Unfolding lemmas for the flush and transaction loops
-/

/-- Running `flushLoop` on a buffer below the batch size does nothing. -/
theorem flushLoop_small (k : EntityKind) (batchSize : Nat) (buf : List γ)
    (h : buf.length < batchSize) :
    flushLoop k batchSize buf = ([], buf) := by
  rw [flushLoop]
  simp [h]

/-- Running `flushLoop` on a buffer holding at least one full batch flushes it and
recurses. -/
theorem flushLoop_step (k : EntityKind) (batchSize : Nat) (buf : List γ)
    (hb : 0 < batchSize) (h : batchSize ≤ buf.length) :
    flushLoop k batchSize buf =
      (Ev.prepared k batchSize :: (flushLoop k batchSize
          (buf.drop batchSize)).1,
        (flushLoop k batchSize (buf.drop batchSize)).2) := by
  rw [flushLoop]
  have : ¬(batchSize = 0 ∨ buf.length < batchSize) := by omega
  simp [this]

/-- The flush events of a child buffer: one full prepared batch per
`batchSize` rows held. -/
theorem flushLoop_fst (k : EntityKind) (batchSize : Nat) (buf : List γ)
    (hb : 0 < batchSize) :
    (flushLoop k batchSize buf).1 =
      List.replicate (buf.length / batchSize) (Ev.prepared k batchSize) := by
  have H : ∀ n (buf : List γ), buf.length = n →
      (flushLoop k batchSize buf).1 =
        List.replicate (buf.length / batchSize)
          (Ev.prepared k batchSize) := by
    intro n
    induction n using Nat.strong_induction_on with
    | _ n ih =>
      intro buf hlen
      by_cases h : buf.length < batchSize
      · rw [flushLoop_small k batchSize buf h]
        simp [Nat.div_eq_of_lt h]
      · push_neg at h
        rw [flushLoop_step k batchSize buf hb h]
        dsimp only
        rw [ih (buf.length - batchSize) (by omega) _ (by simp)]
        have hq : buf.length / batchSize =
            (buf.length - batchSize) / batchSize + 1 := by
          conv_lhs => rw [show buf.length = (buf.length - batchSize) + batchSize
            by omega]
          rw [Nat.add_div_right _ hb]
        simp only [List.length_drop]
        rw [hq, List.replicate_succ]
  exact H buf.length buf rfl

/-- The retained remainder of a child buffer after flushing. -/
theorem flushLoop_snd_length (k : EntityKind) (batchSize : Nat)
    (buf : List γ) (hb : 0 < batchSize) :
    (flushLoop k batchSize buf).2.length = buf.length % batchSize := by
  have H : ∀ n (buf : List γ), buf.length = n →
      (flushLoop k batchSize buf).2.length = buf.length % batchSize := by
    intro n
    induction n using Nat.strong_induction_on with
    | _ n ih =>
      intro buf hlen
      by_cases h : buf.length < batchSize
      · rw [flushLoop_small k batchSize buf h]
        simp [Nat.mod_eq_of_lt h]
      · push_neg at h
        rw [flushLoop_step k batchSize buf hb h]
        have hdrop : (buf.drop batchSize).length = buf.length - batchSize := by
          simp
        rw [ih (buf.length - batchSize) (by omega) _ hdrop, hdrop]
        conv_rhs => rw [show buf.length = (buf.length - batchSize) + batchSize
          by omega]
        rw [Nat.add_mod_right]
  exact H buf.length buf rfl

/-- Unfolding lemma for `txLoop` at a final, partial (possibly empty) chunk:
no prepared parent write, child flushes, the in-loop cursor update and
callback, then the post-loop remainder handling in which leftover
transactions are counted into the cursor a second time. -/
theorem txLoop_last (batchSize inputBatchSize outputBatchSize : Nat)
    (rows : List BtcTransaction) (ins : List inputRow) (outs : List outputRow)
    (cursor total : Nat) (hb : 0 < batchSize) (h : rows.length < batchSize) :
    txLoop batchSize inputBatchSize outputBatchSize rows ins outs cursor
        total =
      Ev.read rows.length ::
        ((flushLoop .input inputBatchSize
            (collectTransactionData rows ins outs).1).1 ++
          (flushLoop .output outputBatchSize
            (collectTransactionData rows ins outs).2).1 ++
          (Ev.progress (cursor + rows.length) total ::
            ((if 0 < rows.length then [Ev.direct .tx rows.length] else []) ++
              (if 0 < (flushLoop .input inputBatchSize
                  (collectTransactionData rows ins outs).1).2.length then
                [Ev.direct .input (flushLoop .input inputBatchSize
                  (collectTransactionData rows ins outs).1).2.length]
              else []) ++
              (if 0 < (flushLoop .output outputBatchSize
                  (collectTransactionData rows ins outs).2).2.length then
                [Ev.direct .output (flushLoop .output outputBatchSize
                  (collectTransactionData rows ins outs).2).2.length]
              else []) ++
              [Ev.progress (cursor + rows.length + rows.length) total]))) := by
  rw [txLoop]
  simp only [dif_neg (Nat.pos_iff_ne_zero.mp hb)]
  have hmin : min rows.length batchSize = rows.length := Nat.min_eq_left h.le
  have htake : rows.take batchSize = rows := List.take_of_length_le h.le
  simp [hmin, htake, h, Nat.ne_of_lt h]

/-- Unfolding lemma for `txLoop` at a full chunk: prepared parent write,
child flushes, cursor advance, progress, continue with the retained child
buffers. -/
theorem txLoop_step (batchSize inputBatchSize outputBatchSize : Nat)
    (rows : List BtcTransaction) (ins : List inputRow) (outs : List outputRow)
    (cursor total : Nat) (hb : 0 < batchSize) (h : batchSize ≤ rows.length) :
    txLoop batchSize inputBatchSize outputBatchSize rows ins outs cursor
        total =
      Ev.read batchSize :: Ev.prepared .tx batchSize ::
        ((flushLoop .input inputBatchSize
            (collectTransactionData (rows.take batchSize) ins outs).1).1 ++
          (flushLoop .output outputBatchSize
            (collectTransactionData (rows.take batchSize) ins outs).2).1 ++
          (Ev.progress (cursor + batchSize) total ::
            txLoop batchSize inputBatchSize outputBatchSize
              (rows.drop batchSize)
              (flushLoop .input inputBatchSize
                (collectTransactionData (rows.take batchSize) ins outs).1).2
              (flushLoop .output outputBatchSize
                (collectTransactionData (rows.take batchSize) ins outs).2).2
              (cursor + batchSize) total)) := by
  rw [txLoop]
  simp only [dif_neg (Nat.pos_iff_ne_zero.mp hb)]
  have hmin : min rows.length batchSize = batchSize := Nat.min_eq_right h
  simp [hmin, Nat.not_lt.mpr (Nat.le_refl batchSize)]

/-!
## Batch-boundary characterizations, blocks loader
-/

/-- Every prepared write of the blocks loop is exactly one full batch, and
there are exactly `⌊rows/batchSize⌋` of them. -/
theorem blocksLoop_preparedSizes (batchSize : Nat) (hb : 0 < batchSize) :
    ∀ (rows : List α) (cursor total : Nat),
      preparedSizes .block (blocksLoop batchSize rows cursor total) =
        List.replicate (rows.length / batchSize) batchSize := by
  have H : ∀ n (rows : List α), rows.length = n → ∀ cursor total,
      preparedSizes .block (blocksLoop batchSize rows cursor total) =
        List.replicate (rows.length / batchSize) batchSize := by
    intro n
    induction n using Nat.strong_induction_on with
    | _ n ih =>
      intro rows hlen cursor total
      by_cases h : rows.length < batchSize
      · rw [blocksLoop_last _ _ _ _ hb h, preparedSizes_cons_read,
          Nat.div_eq_of_lt h]
        by_cases h0 : 0 < rows.length
        · simp [h0, preparedSizes]
        · simp [h0, preparedSizes]
      · push_neg at h
        rw [blocksLoop_step _ _ _ _ hb h, preparedSizes_cons_read,
          preparedSizes_cons_prepared_self, preparedSizes_cons_progress]
        rw [ih (rows.length - batchSize) (by omega) _ (by simp) _ _]
        simp only [List.length_drop]
        have hq : rows.length / batchSize =
            (rows.length - batchSize) / batchSize + 1 := by
          conv_lhs => rw [show rows.length = (rows.length - batchSize) +
            batchSize by omega]
          rw [Nat.add_div_right _ hb]
        rw [hq, List.replicate_succ]
  exact fun rows cursor total => H rows.length rows rfl cursor total

/-- The blocks loop performs exactly one direct write, of exactly
`rows % batchSize` rows, when that remainder is positive — and none at all
when the row count is a multiple of the batch size. -/
theorem blocksLoop_directSizes (batchSize : Nat) (hb : 0 < batchSize) :
    ∀ (rows : List α) (cursor total : Nat),
      directSizes .block (blocksLoop batchSize rows cursor total) =
        if rows.length % batchSize = 0 then []
        else [rows.length % batchSize] := by
  have H : ∀ n (rows : List α), rows.length = n → ∀ cursor total,
      directSizes .block (blocksLoop batchSize rows cursor total) =
        if rows.length % batchSize = 0 then []
        else [rows.length % batchSize] := by
    intro n
    induction n using Nat.strong_induction_on with
    | _ n ih =>
      intro rows hlen cursor total
      by_cases h : rows.length < batchSize
      · rw [blocksLoop_last _ _ _ _ hb h, directSizes_cons_read,
          Nat.mod_eq_of_lt h]
        by_cases h0 : 0 < rows.length
        · have : rows.length ≠ 0 := by omega
          simp [h0, this, directSizes]
        · have : rows.length = 0 := by omega
          simp [h0, this, directSizes]
      · push_neg at h
        rw [blocksLoop_step _ _ _ _ hb h, directSizes_cons_read,
          directSizes_cons_prepared, directSizes_cons_progress]
        rw [ih (rows.length - batchSize) (by omega) _ (by simp) _ _]
        simp only [List.length_drop]
        conv_rhs => rw [show rows.length = (rows.length - batchSize) +
          batchSize by omega]
        rw [Nat.add_mod_right]
  exact fun rows cursor total => H rows.length rows rfl cursor total

/-- Cursor values the blocks loop reports: one per full batch —
`cursor + (i+1)·batchSize` for the i-th — plus, when a partial remainder
exists, a final `cursor + rows.length`.  In particular every reported value
is the running cursor plus the rows committed so far, and the sequence is
strictly increasing. -/
theorem blocksLoop_cursors (batchSize : Nat) (hb : 0 < batchSize) :
    ∀ (rows : List α) (cursor total : Nat),
      cursors (blocksLoop batchSize rows cursor total) =
        ((List.range (rows.length / batchSize)).map
          fun i => cursor + (i + 1) * batchSize) ++
          (if rows.length % batchSize = 0 then []
          else [cursor + rows.length]) := by
  have H : ∀ n (rows : List α), rows.length = n → ∀ cursor total,
      cursors (blocksLoop batchSize rows cursor total) =
        ((List.range (rows.length / batchSize)).map
          fun i => cursor + (i + 1) * batchSize) ++
          (if rows.length % batchSize = 0 then []
          else [cursor + rows.length]) := by
    intro n
    induction n using Nat.strong_induction_on with
    | _ n ih =>
      intro rows hlen cursor total
      by_cases h : rows.length < batchSize
      · rw [blocksLoop_last _ _ _ _ hb h, cursors_cons_read,
          Nat.div_eq_of_lt h, Nat.mod_eq_of_lt h]
        by_cases h0 : 0 < rows.length
        · have : rows.length ≠ 0 := by omega
          simp [h0, this, cursors]
        · have : rows.length = 0 := by omega
          simp [h0, this, cursors]
      · push_neg at h
        rw [blocksLoop_step _ _ _ _ hb h, cursors_cons_read,
          cursors_cons_prepared, cursors_cons_progress]
        rw [ih (rows.length - batchSize) (by omega) _ (by simp) _ _]
        simp only [List.length_drop]
        have hq : rows.length / batchSize =
            (rows.length - batchSize) / batchSize + 1 := by
          conv_lhs => rw [show rows.length = (rows.length - batchSize) +
            batchSize by omega]
          rw [Nat.add_div_right _ hb]
        have hm : (rows.length - batchSize) % batchSize =
            rows.length % batchSize := by
          conv_rhs => rw [show rows.length = (rows.length - batchSize) +
            batchSize by omega]
          rw [Nat.add_mod_right]
        rw [hq, hm, List.range_succ_eq_map]
        simp only [List.map_cons, List.map_map, List.cons_append]
        congr 1
        · omega
        · congr 1
          · apply List.map_congr_left
            intro i _
            simp only [Function.comp_apply, Nat.succ_eq_add_one]
            ring
          · by_cases hm0 : rows.length % batchSize = 0
            · simp [hm0]
            · simp only [hm0, if_neg]
              have hsub : cursor + batchSize + (rows.length - batchSize) =
                  cursor + rows.length := by omega
              rw [hsub]
  exact fun rows cursor total => H rows.length rows rfl cursor total

/-!
## Helper lemmas: contributions of flush events and remainder singletons
-/

theorem preparedSizes_replicate_prepared_self (k : EntityKind) (q m : Nat) :
    preparedSizes k (List.replicate q (Ev.prepared k m)) =
      List.replicate q m := by
  induction q with
  | zero => rfl
  | succ q ih => simp [List.replicate_succ, preparedSizes_cons_prepared_self,
      ih]

theorem preparedSizes_replicate_prepared_other (k k' : EntityKind) (q m : Nat)
    (h : k' ≠ k) :
    preparedSizes k (List.replicate q (Ev.prepared k' m)) = [] := by
  induction q with
  | zero => rfl
  | succ q ih => simp [List.replicate_succ,
      preparedSizes_cons_prepared_other _ _ _ _ h, ih]

theorem directSizes_replicate_prepared (k k' : EntityKind) (q m : Nat) :
    directSizes k (List.replicate q (Ev.prepared k' m)) = [] := by
  induction q with
  | zero => rfl
  | succ q ih => simp [List.replicate_succ, directSizes_cons_prepared, ih]

theorem preparedSizes_flushLoop_self (k : EntityKind) (bsz : Nat)
    (buf : List γ) (hb : 0 < bsz) :
    preparedSizes k (flushLoop k bsz buf).1 =
      List.replicate (buf.length / bsz) bsz := by
  rw [flushLoop_fst _ _ _ hb, preparedSizes_replicate_prepared_self]

theorem preparedSizes_flushLoop_other (k k' : EntityKind) (bsz : Nat)
    (buf : List γ) (hb : 0 < bsz) (h : k' ≠ k) :
    preparedSizes k (flushLoop k' bsz buf).1 = [] := by
  rw [flushLoop_fst _ _ _ hb, preparedSizes_replicate_prepared_other _ _ _ _ h]

theorem directSizes_flushLoop (k k' : EntityKind) (bsz : Nat) (buf : List γ)
    (hb : 0 < bsz) :
    directSizes k (flushLoop k' bsz buf).1 = [] := by
  rw [flushLoop_fst _ _ _ hb, directSizes_replicate_prepared]

theorem preparedSizes_if_direct (k k' : EntityKind) (c : Prop) [Decidable c]
    (n : Nat) :
    preparedSizes k (if c then [Ev.direct k' n] else []) = [] := by
  split <;> rfl

theorem directSizes_if_direct_other (k k' : EntityKind) (c : Prop)
    [Decidable c] (n : Nat) (h : k' ≠ k) :
    directSizes k (if c then [Ev.direct k' n] else []) = [] := by
  split
  · rw [directSizes_cons_direct_other _ _ _ _ h]
    rfl
  · rfl

theorem directSizes_if_direct_self (k : EntityKind) (c : Prop) [Decidable c]
    (n : Nat) :
    directSizes k (if c then [Ev.direct k n] else []) =
      if c then [n] else [] := by
  split
  · rw [directSizes_cons_direct_self]
    rfl
  · rfl

/-- Arithmetic fact `(a % n + m) % n = (a + m) % n`, the shift used when a child buffer's
remainder is carried into the next chunk. -/
theorem modCarry (a m n : Nat) : (a % n + m) % n = (a + m) % n :=
  Nat.mod_add_mod a n m

/-- Full flushes before and after a carry combine: the flush count over a
run equals the flush count of the concatenated stream. -/
theorem divCarry (n : Nat) (hn : 0 < n) (a m : Nat) :
    a / n + (a % n + m) / n = (a + m) / n := by
  conv_rhs => rw [← Nat.div_add_mod a n, Nat.add_assoc, Nat.mul_add_div hn]

theorem inputsCount_append (l₁ l₂ : List BtcTransaction) :
    inputsCount (l₁ ++ l₂) = inputsCount l₁ + inputsCount l₂ := by
  simp [inputsCount]

theorem outputsCount_append (l₁ l₂ : List BtcTransaction) :
    outputsCount (l₁ ++ l₂) = outputsCount l₁ + outputsCount l₂ := by
  simp [outputsCount]

theorem collectTransactionData_fst_length (txs : List BtcTransaction) :
    ∀ (ins : List inputRow) (outs : List outputRow),
      (collectTransactionData txs ins outs).1.length =
        ins.length + inputsCount txs := by
  induction txs with
  | nil => intro ins outs; simp [collectTransactionData, inputsCount]
  | cons tx rest ih =>
    intro ins outs
    rw [collectTransactionData, ih]
    simp [inputsCount]
    omega

theorem collectTransactionData_snd_length (txs : List BtcTransaction) :
    ∀ (ins : List inputRow) (outs : List outputRow),
      (collectTransactionData txs ins outs).2.length =
        outs.length + outputsCount txs := by
  induction txs with
  | nil => intro ins outs; simp [collectTransactionData, outputsCount]
  | cons tx rest ih =>
    intro ins outs
    rw [collectTransactionData, ih]
    simp [outputsCount]
    omega

/-- Transactions without children leave the buffers untouched. -/
theorem collectTransactionData_no_children (txs : List BtcTransaction)
    (hchild : ∀ tx ∈ txs, tx.Inputs = [] ∧ tx.Outputs = []) :
    ∀ (ins : List inputRow) (outs : List outputRow),
      collectTransactionData txs ins outs = (ins, outs) := by
  induction txs with
  | nil => intro ins outs; rfl
  | cons tx rest ih =>
    intro ins outs
    have htx := hchild tx (by simp)
    rw [collectTransactionData]
    rw [htx.1, htx.2]
    simp only [List.enum_nil, List.map_nil, List.append_nil]
    exact ih (fun t ht => hchild t (by simp [ht])) ins outs

/-!
## Specialized flush-contribution lemmas (fixed entity kinds)
-/

theorem flushIn_ps_tx (bi : Nat) (hbi : 0 < bi) (buf : List inputRow) :
    preparedSizes .tx (flushLoop .input bi buf).1 = [] :=
  preparedSizes_flushLoop_other _ _ _ _ hbi (by decide)

theorem flushOut_ps_tx (bo : Nat) (hbo : 0 < bo) (buf : List outputRow) :
    preparedSizes .tx (flushLoop .output bo buf).1 = [] :=
  preparedSizes_flushLoop_other _ _ _ _ hbo (by decide)

theorem flushIn_ps_input (bi : Nat) (hbi : 0 < bi) (buf : List inputRow) :
    preparedSizes .input (flushLoop .input bi buf).1 =
      List.replicate (buf.length / bi) bi :=
  preparedSizes_flushLoop_self _ _ _ hbi

theorem flushOut_ps_input (bo : Nat) (hbo : 0 < bo) (buf : List outputRow) :
    preparedSizes .input (flushLoop .output bo buf).1 = [] :=
  preparedSizes_flushLoop_other _ _ _ _ hbo (by decide)

theorem flushIn_ps_output (bi : Nat) (hbi : 0 < bi) (buf : List inputRow) :
    preparedSizes .output (flushLoop .input bi buf).1 = [] :=
  preparedSizes_flushLoop_other _ _ _ _ hbi (by decide)

theorem flushOut_ps_output (bo : Nat) (hbo : 0 < bo) (buf : List outputRow) :
    preparedSizes .output (flushLoop .output bo buf).1 =
      List.replicate (buf.length / bo) bo :=
  preparedSizes_flushLoop_self _ _ _ hbo

theorem flushIn_ds (k : EntityKind) (bi : Nat) (hbi : 0 < bi)
    (buf : List inputRow) :
    directSizes k (flushLoop .input bi buf).1 = [] :=
  directSizes_flushLoop _ _ _ _ hbi

theorem flushOut_ds (k : EntityKind) (bo : Nat) (hbo : 0 < bo)
    (buf : List outputRow) :
    directSizes k (flushLoop .output bo buf).1 = [] :=
  directSizes_flushLoop _ _ _ _ hbo

/-!
## Batch-boundary characterizations, transactions loader
-/

/-- Every prepared parent write of the transactions loop is exactly one full
batch, and there are exactly `⌊rows/batchSize⌋` of them. -/
theorem txLoop_preparedSizes_tx (b bi bo : Nat) (hb : 0 < b) (hbi : 0 < bi)
    (hbo : 0 < bo) :
    ∀ (rows : List BtcTransaction) (ins : List inputRow)
      (outs : List outputRow) (cursor total : Nat),
      preparedSizes .tx (txLoop b bi bo rows ins outs cursor total) =
        List.replicate (rows.length / b) b := by
  have H : ∀ n (rows : List BtcTransaction), rows.length = n →
      ∀ (ins : List inputRow) (outs : List outputRow) (cursor total : Nat),
      preparedSizes .tx (txLoop b bi bo rows ins outs cursor total) =
        List.replicate (rows.length / b) b := by
    intro n
    induction n using Nat.strong_induction_on with
    | _ n ih =>
      intro rows hlen ins outs cursor total
      by_cases h : rows.length < b
      · rw [txLoop_last _ _ _ _ _ _ _ _ hb h, Nat.div_eq_of_lt h]
        simp only [preparedSizes_cons_read, preparedSizes_append,
          preparedSizes_cons_progress, flushIn_ps_tx bi hbi,
          flushOut_ps_tx bo hbo, preparedSizes_if_direct,
          preparedSizes_nil, List.append_nil, List.nil_append,
          List.replicate_zero]
      · push_neg at h
        rw [txLoop_step _ _ _ _ _ _ _ _ hb h]
        simp only [preparedSizes_cons_read, preparedSizes_cons_prepared_self,
          preparedSizes_append, preparedSizes_cons_progress,
          flushIn_ps_tx bi hbi, flushOut_ps_tx bo hbo, List.nil_append]
        rw [ih (rows.length - b) (by omega) _ (by simp) _ _ _ _]
        simp only [List.length_drop]
        have hq : rows.length / b = (rows.length - b) / b + 1 := by
          conv_lhs => rw [show rows.length = (rows.length - b) + b by omega]
          rw [Nat.add_div_right _ hb]
        rw [hq, List.replicate_succ]
  exact fun rows ins outs cursor total => H rows.length rows rfl ins outs
    cursor total

theorem dsTx_ifIn (c : Prop) [Decidable c] (n : Nat) :
    directSizes .tx (if c then [Ev.direct .input n] else []) = [] :=
  directSizes_if_direct_other _ _ _ _ (by decide)

theorem dsTx_ifOut (c : Prop) [Decidable c] (n : Nat) :
    directSizes .tx (if c then [Ev.direct .output n] else []) = [] :=
  directSizes_if_direct_other _ _ _ _ (by decide)

theorem dsIn_ifTx (c : Prop) [Decidable c] (n : Nat) :
    directSizes .input (if c then [Ev.direct .tx n] else []) = [] :=
  directSizes_if_direct_other _ _ _ _ (by decide)

theorem dsIn_ifOut (c : Prop) [Decidable c] (n : Nat) :
    directSizes .input (if c then [Ev.direct .output n] else []) = [] :=
  directSizes_if_direct_other _ _ _ _ (by decide)

theorem dsOut_ifTx (c : Prop) [Decidable c] (n : Nat) :
    directSizes .output (if c then [Ev.direct .tx n] else []) = [] :=
  directSizes_if_direct_other _ _ _ _ (by decide)

theorem dsOut_ifIn (c : Prop) [Decidable c] (n : Nat) :
    directSizes .output (if c then [Ev.direct .input n] else []) = [] :=
  directSizes_if_direct_other _ _ _ _ (by decide)

/-- The transactions loop performs exactly one direct parent write, of
exactly the remainder `rows % batchSize`, when that remainder is positive —
and none when the row count is a multiple of the batch size. -/
theorem txLoop_directSizes_tx (b bi bo : Nat) (hb : 0 < b) (hbi : 0 < bi)
    (hbo : 0 < bo) :
    ∀ (rows : List BtcTransaction) (ins : List inputRow)
      (outs : List outputRow) (cursor total : Nat),
      directSizes .tx (txLoop b bi bo rows ins outs cursor total) =
        if rows.length % b = 0 then [] else [rows.length % b] := by
  have H : ∀ n (rows : List BtcTransaction), rows.length = n →
      ∀ (ins : List inputRow) (outs : List outputRow) (cursor total : Nat),
      directSizes .tx (txLoop b bi bo rows ins outs cursor total) =
        if rows.length % b = 0 then [] else [rows.length % b] := by
    intro n
    induction n using Nat.strong_induction_on with
    | _ n ih =>
      intro rows hlen ins outs cursor total
      by_cases h : rows.length < b
      · rw [txLoop_last _ _ _ _ _ _ _ _ hb h, Nat.mod_eq_of_lt h]
        simp only [directSizes_cons_read, directSizes_append,
          directSizes_cons_progress, flushIn_ds _ bi hbi,
          flushOut_ds _ bo hbo, directSizes_if_direct_self,
          dsTx_ifIn, dsTx_ifOut,
          directSizes_nil, List.append_nil, List.nil_append]
        by_cases h0 : 0 < rows.length
        · have : rows.length ≠ 0 := by omega
          simp [h0, this, directSizes]
        · have : rows.length = 0 := by omega
          simp [h0, this, directSizes]
      · push_neg at h
        rw [txLoop_step _ _ _ _ _ _ _ _ hb h]
        simp only [directSizes_cons_read, directSizes_cons_prepared,
          directSizes_append, directSizes_cons_progress,
          flushIn_ds _ bi hbi, flushOut_ds _ bo hbo, List.nil_append]
        rw [ih (rows.length - b) (by omega) _ (by simp) _ _ _ _]
        simp only [List.length_drop]
        conv_rhs => rw [show rows.length = (rows.length - b) + b by omega]
        rw [Nat.add_mod_right]
  exact fun rows ins outs cursor total => H rows.length rows rfl ins outs
    cursor total

theorem psIn_consPreparedTx (n : Nat) (evs : List Ev) :
    preparedSizes .input (.prepared .tx n :: evs) =
      preparedSizes .input evs :=
  preparedSizes_cons_prepared_other _ _ _ _ (by decide)

theorem psOut_consPreparedTx (n : Nat) (evs : List Ev) :
    preparedSizes .output (.prepared .tx n :: evs) =
      preparedSizes .output evs :=
  preparedSizes_cons_prepared_other _ _ _ _ (by decide)

/-- Every prepared input-row write of the transactions loop is exactly one
full input batch; across the whole run there are exactly
`⌊(carried + total input rows)/inputBatchSize⌋` of them. -/
theorem txLoop_preparedSizes_input (b bi bo : Nat) (hb : 0 < b)
    (hbi : 0 < bi) (hbo : 0 < bo) :
    ∀ (rows : List BtcTransaction) (ins : List inputRow)
      (outs : List outputRow) (cursor total : Nat),
      preparedSizes .input (txLoop b bi bo rows ins outs cursor total) =
        List.replicate ((ins.length + inputsCount rows) / bi) bi := by
  have H : ∀ n (rows : List BtcTransaction), rows.length = n →
      ∀ (ins : List inputRow) (outs : List outputRow) (cursor total : Nat),
      preparedSizes .input (txLoop b bi bo rows ins outs cursor total) =
        List.replicate ((ins.length + inputsCount rows) / bi) bi := by
    intro n
    induction n using Nat.strong_induction_on with
    | _ n ih =>
      intro rows hlen ins outs cursor total
      by_cases h : rows.length < b
      · rw [txLoop_last _ _ _ _ _ _ _ _ hb h]
        simp only [preparedSizes_cons_read, preparedSizes_append,
          preparedSizes_cons_progress, flushIn_ps_input bi hbi,
          flushOut_ps_input bo hbo, preparedSizes_if_direct,
          preparedSizes_nil, List.append_nil, List.nil_append]
        rw [collectTransactionData_fst_length]
      · push_neg at h
        rw [txLoop_step _ _ _ _ _ _ _ _ hb h]
        simp only [preparedSizes_cons_read, psIn_consPreparedTx,
          preparedSizes_append, preparedSizes_cons_progress,
          flushIn_ps_input bi hbi, flushOut_ps_input bo hbo,
          List.append_nil, List.nil_append]
        rw [ih (rows.length - b) (by omega) _ (by simp) _ _ _ _]
        rw [flushLoop_snd_length _ _ _ hbi, collectTransactionData_fst_length,
          ← List.replicate_add, divCarry bi hbi]
        congr 1
        rw [show inputsCount rows =
            inputsCount (rows.take b) + inputsCount (rows.drop b) from by
          rw [← inputsCount_append, List.take_append_drop]]
        rw [Nat.add_assoc]
  exact fun rows ins outs cursor total => H rows.length rows rfl ins outs
    cursor total

/-- Leftover input rows — fewer than one batch — are committed by exactly
one direct write sized to the remainder, and no direct input write occurs
when the stream divides evenly. -/
theorem txLoop_directSizes_input (b bi bo : Nat) (hb : 0 < b)
    (hbi : 0 < bi) (hbo : 0 < bo) :
    ∀ (rows : List BtcTransaction) (ins : List inputRow)
      (outs : List outputRow) (cursor total : Nat),
      directSizes .input (txLoop b bi bo rows ins outs cursor total) =
        if (ins.length + inputsCount rows) % bi = 0 then []
        else [(ins.length + inputsCount rows) % bi] := by
  have H : ∀ n (rows : List BtcTransaction), rows.length = n →
      ∀ (ins : List inputRow) (outs : List outputRow) (cursor total : Nat),
      directSizes .input (txLoop b bi bo rows ins outs cursor total) =
        if (ins.length + inputsCount rows) % bi = 0 then []
        else [(ins.length + inputsCount rows) % bi] := by
    intro n
    induction n using Nat.strong_induction_on with
    | _ n ih =>
      intro rows hlen ins outs cursor total
      by_cases h : rows.length < b
      · rw [txLoop_last _ _ _ _ _ _ _ _ hb h]
        simp only [directSizes_cons_read, directSizes_append,
          directSizes_cons_progress, flushIn_ds _ bi hbi,
          flushOut_ds _ bo hbo, directSizes_if_direct_self,
          dsIn_ifTx, dsIn_ifOut,
          directSizes_nil, List.append_nil, List.nil_append]
        rw [flushLoop_snd_length _ _ _ hbi, collectTransactionData_fst_length]
        by_cases h0 : (ins.length + inputsCount rows) % bi = 0
        · simp [h0]
        · have : 0 < (ins.length + inputsCount rows) % bi := by omega
          simp [h0, this]
      · push_neg at h
        rw [txLoop_step _ _ _ _ _ _ _ _ hb h]
        simp only [directSizes_cons_read, directSizes_cons_prepared,
          directSizes_append, directSizes_cons_progress,
          flushIn_ds _ bi hbi, flushOut_ds _ bo hbo, List.nil_append]
        rw [ih (rows.length - b) (by omega) _ (by simp) _ _ _ _]
        rw [flushLoop_snd_length _ _ _ hbi, collectTransactionData_fst_length,
          modCarry]
        rw [show inputsCount rows =
            inputsCount (rows.take b) + inputsCount (rows.drop b) from by
          rw [← inputsCount_append, List.take_append_drop]]
        rw [Nat.add_assoc]
  exact fun rows ins outs cursor total => H rows.length rows rfl ins outs
    cursor total

/-- Every prepared output-row write of the transactions loop is exactly one
full output batch; across the whole run there are exactly
`⌊(carried + total output rows)/outputBatchSize⌋` of them. -/
theorem txLoop_preparedSizes_output (b bi bo : Nat) (hb : 0 < b)
    (hbi : 0 < bi) (hbo : 0 < bo) :
    ∀ (rows : List BtcTransaction) (ins : List inputRow)
      (outs : List outputRow) (cursor total : Nat),
      preparedSizes .output (txLoop b bi bo rows ins outs cursor total) =
        List.replicate ((outs.length + outputsCount rows) / bo) bo := by
  have H : ∀ n (rows : List BtcTransaction), rows.length = n →
      ∀ (ins : List inputRow) (outs : List outputRow) (cursor total : Nat),
      preparedSizes .output (txLoop b bi bo rows ins outs cursor total) =
        List.replicate ((outs.length + outputsCount rows) / bo) bo := by
    intro n
    induction n using Nat.strong_induction_on with
    | _ n ih =>
      intro rows hlen ins outs cursor total
      by_cases h : rows.length < b
      · rw [txLoop_last _ _ _ _ _ _ _ _ hb h]
        simp only [preparedSizes_cons_read, preparedSizes_append,
          preparedSizes_cons_progress, flushIn_ps_output bi hbi,
          flushOut_ps_output bo hbo, preparedSizes_if_direct,
          preparedSizes_nil, List.append_nil, List.nil_append]
        rw [collectTransactionData_snd_length]
      · push_neg at h
        rw [txLoop_step _ _ _ _ _ _ _ _ hb h]
        simp only [preparedSizes_cons_read, psOut_consPreparedTx,
          preparedSizes_append, preparedSizes_cons_progress,
          flushIn_ps_output bi hbi, flushOut_ps_output bo hbo,
          List.append_nil, List.nil_append]
        rw [ih (rows.length - b) (by omega) _ (by simp) _ _ _ _]
        rw [flushLoop_snd_length _ _ _ hbo, collectTransactionData_snd_length,
          ← List.replicate_add, divCarry bo hbo]
        congr 1
        rw [show outputsCount rows =
            outputsCount (rows.take b) + outputsCount (rows.drop b) from by
          rw [← outputsCount_append, List.take_append_drop]]
        rw [Nat.add_assoc]
  exact fun rows ins outs cursor total => H rows.length rows rfl ins outs
    cursor total

/-- Leftover output rows — fewer than one batch — are committed by exactly
one direct write sized to the remainder, and no direct output write occurs
when the stream divides evenly. -/
theorem txLoop_directSizes_output (b bi bo : Nat) (hb : 0 < b)
    (hbi : 0 < bi) (hbo : 0 < bo) :
    ∀ (rows : List BtcTransaction) (ins : List inputRow)
      (outs : List outputRow) (cursor total : Nat),
      directSizes .output (txLoop b bi bo rows ins outs cursor total) =
        if (outs.length + outputsCount rows) % bo = 0 then []
        else [(outs.length + outputsCount rows) % bo] := by
  have H : ∀ n (rows : List BtcTransaction), rows.length = n →
      ∀ (ins : List inputRow) (outs : List outputRow) (cursor total : Nat),
      directSizes .output (txLoop b bi bo rows ins outs cursor total) =
        if (outs.length + outputsCount rows) % bo = 0 then []
        else [(outs.length + outputsCount rows) % bo] := by
    intro n
    induction n using Nat.strong_induction_on with
    | _ n ih =>
      intro rows hlen ins outs cursor total
      by_cases h : rows.length < b
      · rw [txLoop_last _ _ _ _ _ _ _ _ hb h]
        simp only [directSizes_cons_read, directSizes_append,
          directSizes_cons_progress, flushIn_ds _ bi hbi,
          flushOut_ds _ bo hbo, directSizes_if_direct_self,
          dsOut_ifTx, dsOut_ifIn,
          directSizes_nil, List.append_nil, List.nil_append]
        rw [flushLoop_snd_length _ _ _ hbo, collectTransactionData_snd_length]
        by_cases h0 : (outs.length + outputsCount rows) % bo = 0
        · simp [h0]
        · have : 0 < (outs.length + outputsCount rows) % bo := by omega
          simp [h0, this]
      · push_neg at h
        rw [txLoop_step _ _ _ _ _ _ _ _ hb h]
        simp only [directSizes_cons_read, directSizes_cons_prepared,
          directSizes_append, directSizes_cons_progress,
          flushIn_ds _ bi hbi, flushOut_ds _ bo hbo, List.nil_append]
        rw [ih (rows.length - b) (by omega) _ (by simp) _ _ _ _]
        rw [flushLoop_snd_length _ _ _ hbo, collectTransactionData_snd_length,
          modCarry]
        rw [show outputsCount rows =
            outputsCount (rows.take b) + outputsCount (rows.drop b) from by
          rw [← outputsCount_append, List.take_append_drop]]
        rw [Nat.add_assoc]
  exact fun rows ins outs cursor total => H rows.length rows rfl ins outs
    cursor total

theorem periodicSaves_eq (cbs : List (Nat × Nat)) :
    ∀ counter, periodicSaves counter cbs =
      ((indexedFrom (counter + 1) cbs).filter
        (fun p => p.1 % saveInterval = 0)).map Prod.snd := by
  induction cbs with
  | nil => intro counter; rfl
  | cons cb rest ih =>
    intro counter
    by_cases h : (counter + 1) % saveInterval = 0
    · rw [show periodicSaves counter (cb :: rest) =
          cb :: periodicSaves (counter + 1) rest from by
        rw [periodicSaves, if_pos h]]
      rw [ih (counter + 1)]
      rw [show indexedFrom (counter + 1) (cb :: rest) =
          (counter + 1, cb) :: indexedFrom (counter + 1 + 1) rest from rfl]
      rw [List.filter_cons]
      simp [h]
    · rw [show periodicSaves counter (cb :: rest) =
          periodicSaves (counter + 1) rest from by
        rw [periodicSaves, if_neg h]]
      rw [ih (counter + 1)]
      rw [show indexedFrom (counter + 1) (cb :: rest) =
          (counter + 1, cb) :: indexedFrom (counter + 1 + 1) rest from rfl]
      rw [List.filter_cons]
      simp [h]

theorem attemptedSpec_nil : attemptedSpec [] = [] := rfl

theorem walkFiles_eq (files : List Bool) :
    walkFiles files = (attemptedSpec files, files.all fun x => x) := by
  induction files with
  | nil => rfl
  | cons x xs ih =>
    cases x
    · simp [walkFiles, attemptedSpec]
    · simp [walkFiles, attemptedSpec, ih, List.takeWhile_cons,
        List.dropWhile_cons]

theorem attemptedSpec_append (l₁ l₂ : List Bool) :
    attemptedSpec (l₁ ++ l₂) =
      if l₁.all (fun x => x) then l₁ ++ attemptedSpec l₂
      else attemptedSpec l₁ := by
  induction l₁ with
  | nil => simp
  | cons x xs ih =>
    cases x
    · simp [attemptedSpec, List.takeWhile_cons, List.dropWhile_cons]
    · simp only [List.cons_append, attemptedSpec, List.takeWhile_cons,
        List.dropWhile_cons, List.all_cons, Bool.true_and]
      by_cases hall : xs.all (fun x => x)
      · simp only [attemptedSpec] at ih
        simp [hall, ih]
      · simp only [attemptedSpec] at ih
        simp [hall, ih]

theorem attemptedSpec_of_all (l : List Bool) (h : l.all fun x => x) :
    attemptedSpec l = l := by
  have := attemptedSpec_append l []
  simpa [h, attemptedSpec_nil] using this

/-!
## Claims C4, C5, C7, C8
-/

/-- C4 (amended): for every file, a state save is triggered on exactly the
progress callbacks whose 1-based ordinal is a multiple of the save interval
(K = 10); an additional, unconditional save of the last reported state
happens when the loader invocation returns successfully, and no final save
happens when it returns an error (the walk callback propagates the error
before the final-save line runs). -/
theorem claim_C4 (initial : Nat × Nat) (callbacks : List (Nat × Nat))
    (loaderOk : Bool) :
    processFileSaves initial callbacks loaderOk =
      ((indexedFrom 1 callbacks).filter
        (fun p => p.1 % saveInterval = 0)).map Prod.snd ++
        (if loaderOk then [callbacks.getLast?.getD initial] else []) := by
  rw [processFileSaves, periodicSaves_eq callbacks 0]
  cases loaderOk
  · simp
  · simp

/-- C4 counterexample: a loader that reports one progress callback
`(100, 250)` (so no periodic save is due) and then returns an error
produces no save at all — in particular no unconditional save at return,
refuting the claim that a save happens "regardless of whether it returned
success or an error". -/
theorem claim_C4_counterexample :
    processFileSaves (0, 0) [(100, 250)] false = [] := rfl

/-- C5 (amended): the driver attempts file loads strictly in order and
stops at the first failure: the loads attempted are exactly the leading
successful ones plus the first failing one.  A failure in any file aborts
the entire run — later files of the same date and all later dates included —
because the walk error leads to `os.Exit(1)` for multi-date runs exactly as
for single-date runs. -/
theorem claim_C5 (dates : List DateOutcome) :
    runSync dates = attemptedSpec (allFiles dates) := by
  induction dates with
  | nil => rfl
  | cons d rest ih =>
    rw [show allFiles (d :: rest) =
        (d.blockFiles ++ d.txFiles) ++ allFiles rest from by
      simp [allFiles]]
    rw [attemptedSpec_append, attemptedSpec_append]
    rw [runSync, walkFiles_eq, walkFiles_eq]
    by_cases hbl : d.blockFiles.all (fun x => x)
    · by_cases htl : d.txFiles.all (fun x => x)
      · simp [hbl, htl, ih, attemptedSpec_of_all _ hbl,
          attemptedSpec_of_all _ htl, List.all_append]
      · simp [hbl, htl, attemptedSpec_of_all _ hbl, List.all_append]
    · simp [hbl, List.all_append]

/-- C5 counterexample: two dates, the first containing a single failing
block file and the second a single (would-succeed) block file.  The run
attempts exactly one load — the second date's file is never attempted, so
an error in one file's load does stop the driver from proceeding to
subsequent files and dates. -/
theorem claim_C5_counterexample :
    runSync [⟨[false], []⟩, ⟨[true], []⟩] = [false] ∧
    (allFiles [⟨[false], []⟩, ⟨[true], []⟩]).length = 2 := ⟨rfl, rfl⟩

/-- C7: `IsComplete` is true exactly when the total is positive and the
cursor has reached it, and in particular is false on the zero-value
status. -/
theorem claim_C7 :
    (∀ s : Status,
      s.IsComplete = true ↔ (0 < s.NumRows ∧ s.NumRows ≤ s.LastRow)) ∧
    Status.zero.IsComplete = false := by
  constructor
  · intro s
    simp [Status.IsComplete]
  · rfl

/-- C8: loading resumption state for a key with no persisted record yields
the zero-value state — cursor 0, total 0 — and no error. -/
theorem claim_C8 :
    LoadStatus .missing = .ok Status.zero ∧
    Status.zero.LastRow = 0 ∧ Status.zero.NumRows = 0 :=
  ⟨rfl, rfl, rfl⟩

/-!
## Claim C6 — retry executor
-/

theorem retryAux_attemptsMade_le {T : Type} (fn : Nat → Except String T)
    (operation : String) (baseDelay : Nat) :
    ∀ (remaining attempt : Nat),
      (retryAux fn operation baseDelay attempt remaining).attemptsMade ≤
        remaining := by
  intro remaining
  induction remaining with
  | zero => intro attempt; simp [retryAux]
  | succ r ih =>
    intro attempt
    rw [retryAux]
    cases hfa : fn attempt with
    | ok v => simp
    | error e =>
      by_cases hr : r = 0
      · simp [hr]
      · simp only [if_neg hr]
        have := ih (attempt + 1)
        simp
        omega

theorem retryNoReturnAux_eq_retryAux (g : Nat → Option String)
    (operation : String) (baseDelay : Nat) :
    ∀ (remaining attempt : Nat),
      retryNoReturnAux g operation baseDelay attempt remaining =
        retryAux (fun j => match g j with
          | none => .ok ()
          | some e => .error e) operation baseDelay attempt remaining := by
  intro remaining
  induction remaining with
  | zero => intro attempt; rfl
  | succ r ih =>
    intro attempt
    rw [retryNoReturnAux, retryAux]
    cases hga : g attempt with
    | none => simp [hga]
    | some e =>
      by_cases hr : r = 0
      · simp [hga, hr]
      · simp only [hga, if_neg hr]
        rw [ih (attempt + 1)]

/-- C6: the retry executor invokes the wrapped operation at most 3 times;
if attempt `i ≤ 3` is the first to succeed it returns success immediately
after exactly `i` invocations, having slept `baseDelay·1, …, baseDelay·(i-1)`
before the retries; if all 3 attempts fail it returns a wrapped error naming
the operation label and the attempt count, after exactly two delays
`baseDelay·1` then `baseDelay·2`.  The no-return variant behaves
identically. -/
theorem claim_C6 {T : Type} (fn : Nat → Except String T)
    (operation : String) (baseDelay : Nat) :
    ((retryWithBackoff fn operation baseDelay).attemptsMade ≤ maxRetries) ∧
    (∀ i v, 1 ≤ i → i ≤ maxRetries → fn i = .ok v →
      (∀ j, 1 ≤ j → j < i → ∃ e, fn j = .error e) →
      retryWithBackoff fn operation baseDelay =
        ⟨.ok v, i, (List.range (i - 1)).map fun j => baseDelay * (j + 1)⟩) ∧
    (∀ e₁ e₂ e₃, fn 1 = .error e₁ → fn 2 = .error e₂ → fn 3 = .error e₃ →
      retryWithBackoff fn operation baseDelay =
        ⟨.error (operation ++ " failed after 3 attempts: " ++ e₃), 3,
          [baseDelay * 1, baseDelay * 2]⟩) ∧
    (∀ g : Nat → Option String,
      retryWithBackoffNoReturn g operation baseDelay =
        retryWithBackoff (fun j => match g j with
          | none => .ok ()
          | some e => .error e) operation baseDelay) := by
  refine ⟨retryAux_attemptsMade_le fn operation baseDelay maxRetries 1,
    ?_, ?_, ?_⟩
  · intro i v h1 h3 hok hfail
    have h3' : i ≤ 3 := by simpa [maxRetries] using h3
    clear h3
    interval_cases i
    · simp [retryWithBackoff, maxRetries, retryAux, hok]
    · obtain ⟨e₁, he₁⟩ := hfail 1 (by omega) (by omega)
      simp [retryWithBackoff, maxRetries, retryAux, hok, he₁,
        List.range_succ]
    · obtain ⟨e₁, he₁⟩ := hfail 1 (by omega) (by omega)
      obtain ⟨e₂, he₂⟩ := hfail 2 (by omega) (by omega)
      simp [retryWithBackoff, maxRetries, retryAux, hok, he₁, he₂,
        List.range_succ]
  · intro e₁ e₂ e₃ he₁ he₂ he₃
    simp [retryWithBackoff, maxRetries, retryAux, he₁, he₂, he₃]
    rw [show operation ++ " failed after " ++ toString (3 : Nat) ++
        " attempts: " = operation ++ " failed after 3 attempts: " from by
      rw [show (toString (3 : Nat)) = "3" from rfl, String.append_assoc,
        String.append_assoc]
      rw [show ("3" ++ " attempts: ") = "3 attempts: " from rfl]
      rw [show (" failed after " ++ "3 attempts: ") =
        " failed after 3 attempts: " from rfl]]
  · intro g
    exact retryNoReturnAux_eq_retryAux g operation baseDelay maxRetries 1

/-- Witness for C6: an operation failing twice then succeeding on the third
attempt makes exactly 3 invocations, observes delays `1·base` then
`2·base`, and reports success. -/
theorem claim_C6_witness :
    retryWithBackoff
        (fun j => if j < 3 then (.error "boom" : Except String Nat)
          else .ok 42) "write" 5 =
      ⟨.ok 42, 3, [5, 10]⟩ := by
  have h := (claim_C6
    (fun j => if j < 3 then (.error "boom" : Except String Nat) else .ok 42)
    "write" 5).2.1 3 42 (by omega) (by simp [maxRetries]) (by rfl)
    (fun j h1 h2 => ⟨"boom", by interval_cases j <;> rfl⟩)
  exact h.trans (by simp [List.range_succ])

/-!
## Claim C10 — argument/placeholder arity
-/

theorem countPlaceholders_append (s t : String) :
    countPlaceholders (s ++ t) = countPlaceholders s + countPlaceholders t := by
  show (s ++ t).data.count '?' = s.data.count '?' + t.data.count '?'
  rw [String.data_append, List.count_append]

theorem countPlaceholders_go (sep : String) :
    ∀ (l : List String) (acc : String),
      countPlaceholders (String.intercalate.go acc sep l) =
        countPlaceholders acc +
          (l.map fun x => countPlaceholders sep + countPlaceholders x).sum := by
  intro l
  induction l with
  | nil => intro acc; simp [String.intercalate.go]
  | cons a as ih =>
    intro acc
    rw [show String.intercalate.go acc sep (a :: as) =
      String.intercalate.go (acc ++ sep ++ a) sep as from rfl]
    rw [ih]
    simp [countPlaceholders_append]
    ring

theorem countPlaceholders_intercalate_replicate (sep x : String)
    (hsep : countPlaceholders sep = 0) (m : Nat) :
    countPlaceholders (String.intercalate sep (List.replicate m x)) =
      m * countPlaceholders x := by
  cases m with
  | zero =>
    rw [show String.intercalate sep (List.replicate 0 x) = "" from rfl,
      show countPlaceholders "" = 0 from rfl]
    ring
  | succ m =>
    rw [List.replicate_succ,
      show String.intercalate sep (x :: List.replicate m x) =
        String.intercalate.go x sep (List.replicate m x) from rfl,
      countPlaceholders_go]
    simp [hsep, List.map_replicate, List.sum_replicate, smul_eq_mul]
    ring

theorem countPlaceholders_buildValuesSQL (n k : Nat) :
    countPlaceholders (buildValuesSQL n k) = n * k := by
  by_cases hn : n = 0
  · simp [buildValuesSQL, hn]
    rfl
  · rw [buildValuesSQL, if_neg hn]
    rw [countPlaceholders_intercalate_replicate ", " _ rfl]
    rw [countPlaceholders_append, countPlaceholders_append]
    rw [countPlaceholders_intercalate_replicate ", " _ rfl]
    rw [show countPlaceholders "(" = 0 from rfl,
      show countPlaceholders ")" = 0 from rfl,
      show countPlaceholders "?" = 1 from rfl]
    ring

theorem flatMap_length_of_const {T : Type} (f : T → List SqlValue) (k : Nat)
    (hf : ∀ x, (f x).length = k) :
    ∀ l : List T, (l.flatMap f).length = l.length * k := by
  intro l
  induction l with
  | nil => simp
  | cons x xs ih =>
    simp [List.flatMap_cons, hf x, ih]
    ring

theorem extractBlockArgs_length (block : BtcBlock) :
    (extractBlockArgs block).length = 17 := rfl

theorem extractTransactionArgs_length (tx : BtcTransaction) :
    (extractTransactionArgs tx).length = 16 := rfl

theorem extractInputArgs_length (input : inputRow) :
    (extractInputArgs input).length = 12 := rfl

theorem extractOutputArgs_length (output : outputRow) :
    (extractOutputArgs output).length = 9 := rfl

/-- C10: each extract function returns exactly as many values as the
placeholder count its entity's SQL is built with (17 per block, 16 per
transaction, 12 per input row, 9 per output row); every prepared-statement
execution over `items` therefore receives `items.length × placeholderCount`
arguments, every direct insert of `n` items receives `n × placeholderCount`
arguments, the SQL text of a direct insert of `n` items holds exactly
`n × placeholderCount` more placeholders than its base SQL, and in general
`buildValuesSQL n k` holds exactly `n·k` placeholders. -/
theorem claim_C10 :
    (∀ block : BtcBlock, (extractBlockArgs block).length = 17) ∧
    (∀ tx : BtcTransaction, (extractTransactionArgs tx).length = 16) ∧
    (∀ input : inputRow, (extractInputArgs input).length = 12) ∧
    (∀ output : outputRow, (extractOutputArgs output).length = 9) ∧
    (∀ items : List BtcBlock,
      (batchInsertWithStmt items extractBlockArgs).length =
        items.length * 17) ∧
    (∀ items : List BtcTransaction,
      (batchInsertWithStmt items extractTransactionArgs).length =
        items.length * 16) ∧
    (∀ items : List inputRow,
      (batchInsertWithStmt items extractInputArgs).length =
        items.length * 12) ∧
    (∀ items : List outputRow,
      (batchInsertWithStmt items extractOutputArgs).length =
        items.length * 9) ∧
    (∀ n k : Nat, countPlaceholders (buildValuesSQL n k) = n * k) ∧
    (∀ (baseSQL : String) (items : List BtcBlock),
      (directInsert baseSQL items extractBlockArgs 17).2.length =
        items.length * 17 ∧
      countPlaceholders (directInsert baseSQL items extractBlockArgs 17).1 =
        countPlaceholders baseSQL + items.length * 17) ∧
    (∀ (baseSQL : String) (items : List BtcTransaction),
      (directInsert baseSQL items extractTransactionArgs 16).2.length =
        items.length * 16 ∧
      countPlaceholders
          (directInsert baseSQL items extractTransactionArgs 16).1 =
        countPlaceholders baseSQL + items.length * 16) ∧
    (∀ (baseSQL : String) (items : List inputRow),
      (directInsert baseSQL items extractInputArgs 12).2.length =
        items.length * 12 ∧
      countPlaceholders (directInsert baseSQL items extractInputArgs 12).1 =
        countPlaceholders baseSQL + items.length * 12) ∧
    (∀ (baseSQL : String) (items : List outputRow),
      (directInsert baseSQL items extractOutputArgs 9).2.length =
        items.length * 9 ∧
      countPlaceholders (directInsert baseSQL items extractOutputArgs 9).1 =
        countPlaceholders baseSQL + items.length * 9) := by
  refine ⟨extractBlockArgs_length, extractTransactionArgs_length,
    extractInputArgs_length, extractOutputArgs_length,
    flatMap_length_of_const _ _ extractBlockArgs_length,
    flatMap_length_of_const _ _ extractTransactionArgs_length,
    flatMap_length_of_const _ _ extractInputArgs_length,
    flatMap_length_of_const _ _ extractOutputArgs_length,
    countPlaceholders_buildValuesSQL, ?_, ?_, ?_, ?_⟩ <;>
  · intro baseSQL items
    constructor
    · first
        | exact flatMap_length_of_const _ _ extractBlockArgs_length items
        | exact flatMap_length_of_const _ _ extractTransactionArgs_length
            items
        | exact flatMap_length_of_const _ _ extractInputArgs_length items
        | exact flatMap_length_of_const _ _ extractOutputArgs_length items
    · rw [show (directInsert baseSQL items _ _).1 =
        baseSQL ++ buildValuesSQL items.length _ from rfl]
      rw [countPlaceholders_append, countPlaceholders_buildValuesSQL]

/-!
## Remaining loader helpers and claim C2
-/

theorem flushLoop_nil (k : EntityKind) (bsz : Nat) :
    flushLoop k bsz ([] : List γ) = ([], []) := by
  rcases Nat.eq_zero_or_pos bsz with h | h
  · rw [flushLoop]
    simp [h]
  · exact flushLoop_small _ _ _ (by simpa using h)

/-- The first event of the blocks loop is always a read. -/
theorem blocksLoop_head (batchSize : Nat) (rows : List α) (cursor total : Nat)
    (hb : 0 < batchSize) :
    ∃ rest, blocksLoop batchSize rows cursor total =
      Ev.read (min rows.length batchSize) :: rest := by
  rw [blocksLoop]
  simp only [dif_neg (Nat.pos_iff_ne_zero.mp hb)]
  exact ⟨_, rfl⟩

theorem collect_replicate_empty (k : Nat) (ins : List inputRow)
    (outs : List outputRow) :
    collectTransactionData (List.replicate k emptyBtcTransaction) ins outs =
      (ins, outs) :=
  collectTransactionData_no_children _
    (fun tx htx => by rw [List.eq_of_mem_replicate htx]; exact ⟨rfl, rfl⟩)
    ins outs

/-- C2: over any input sequence of `N` records with batch sizes `B > 0`
(and positive child batch sizes for the transaction loader), a loader run
issues exactly `⌊N/B⌋` prepared-statement writes of exactly `B` records
each and, when `N mod B > 0`, exactly one direct write of exactly
`N mod B` records — no direct write at all when `N mod B = 0`.  This holds
for the blocks loader, for the transaction loader's parent stream, and
independently for its input and output child streams (with `N` the child
row count and `B` the child batch size). -/
theorem claim_C2 {α : Type} (b bi bo : Nat) (hb : 0 < b) (hbi : 0 < bi)
    (hbo : 0 < bo) (blockFile : List α) (txFile : List BtcTransaction) :
    (preparedSizes .block (insertBlocksFromFile b blockFile 0 true).1 =
      List.replicate (blockFile.length / b) b ∧
     directSizes .block (insertBlocksFromFile b blockFile 0 true).1 =
      (if blockFile.length % b = 0 then [] else [blockFile.length % b])) ∧
    (preparedSizes .tx
        (insertTransactionsFromFile b bi bo txFile 0 true).1 =
      List.replicate (txFile.length / b) b ∧
     directSizes .tx (insertTransactionsFromFile b bi bo txFile 0 true).1 =
      (if txFile.length % b = 0 then [] else [txFile.length % b])) ∧
    (preparedSizes .input
        (insertTransactionsFromFile b bi bo txFile 0 true).1 =
      List.replicate (inputsCount txFile / bi) bi ∧
     directSizes .input
        (insertTransactionsFromFile b bi bo txFile 0 true).1 =
      (if inputsCount txFile % bi = 0 then []
       else [inputsCount txFile % bi])) ∧
    (preparedSizes .output
        (insertTransactionsFromFile b bi bo txFile 0 true).1 =
      List.replicate (outputsCount txFile / bo) bo ∧
     directSizes .output
        (insertTransactionsFromFile b bi bo txFile 0 true).1 =
      (if outputsCount txFile % bo = 0 then []
       else [outputsCount txFile % bo])) := by
  have hbrun : (insertBlocksFromFile b blockFile 0 true : List Ev × Bool) =
      (blocksLoop b blockFile 0 blockFile.length, true) := by
    simp [insertBlocksFromFile]
  have htrun : insertTransactionsFromFile b bi bo txFile 0 true =
      (txLoop b bi bo txFile [] [] 0 txFile.length, true) := by
    simp [insertTransactionsFromFile]
  rw [hbrun, htrun]
  refine ⟨⟨?_, ?_⟩, ⟨?_, ?_⟩, ⟨?_, ?_⟩, ⟨?_, ?_⟩⟩
  · exact blocksLoop_preparedSizes b hb blockFile 0 blockFile.length
  · exact blocksLoop_directSizes b hb blockFile 0 blockFile.length
  · exact txLoop_preparedSizes_tx b bi bo hb hbi hbo txFile [] [] 0
      txFile.length
  · exact txLoop_directSizes_tx b bi bo hb hbi hbo txFile [] [] 0
      txFile.length
  · simpa using txLoop_preparedSizes_input b bi bo hb hbi hbo txFile [] [] 0
      txFile.length
  · simpa using txLoop_directSizes_input b bi bo hb hbi hbo txFile [] [] 0
      txFile.length
  · simpa using txLoop_preparedSizes_output b bi bo hb hbi hbo txFile [] [] 0
      txFile.length
  · simpa using txLoop_directSizes_output b bi bo hb hbi hbo txFile [] [] 0
      txFile.length

/-- Witness for C2: 5 block records at batch size 2 give exactly two full
prepared batches of 2 and one direct write of 1. -/
theorem claim_C2_witness :
    preparedSizes .block
        (insertBlocksFromFile 2 (List.replicate 5 ()) 0 true).1 = [2, 2] ∧
    directSizes .block
        (insertBlocksFromFile 2 (List.replicate 5 ()) 0 true).1 = [1] := by
  have h := claim_C2 2 3 2 (by norm_num) (by norm_num) (by norm_num)
    (List.replicate 5 ()) []
  refine ⟨h.1.1.trans ?_, h.1.2.trans ?_⟩
  · rw [List.length_replicate]
    decide
  · rw [List.length_replicate]
    decide

/-!
## Claims C1, C3 — progress accounting at concrete scenarios
-/

theorem collect_single_empty (ins : List inputRow)
    (outs : List outputRow) :
    collectTransactionData [emptyBtcTransaction] ins outs = (ins, outs) :=
  collectTransactionData_no_children _
    (fun tx htx => by
      rw [show tx = emptyBtcTransaction from by simpa using htx]
      exact ⟨rfl, rfl⟩)
    ins outs

/-- C1 (code evaluated at the failing input): a transaction file of 3 rows
(no children) at batch size 2.  The run reads a full chunk of 2 (committed,
callback cursor 2), then the final partial chunk of 1: the loop's callback
then reports cursor 3 although only 2 rows are committed, and after the
direct write of the remaining row the cursor is increased by the leftover
count a second time, so the final callback reports 4 of a 3-row file.
Hence a reported cursor exceeds both the rows committed at that moment and
the file's total row count. -/
theorem claim_C1 :
    (insertTransactionsFromFile 2 2 2
        (List.replicate 3 emptyBtcTransaction) 0 true).1 =
      [Ev.read 2, Ev.prepared .tx 2, Ev.progress 2 3,
        Ev.read 1, Ev.progress 3 3, Ev.direct .tx 1, Ev.progress 4 3] ∧
    progressAudit .tx
      (insertTransactionsFromFile 2 2 2
        (List.replicate 3 emptyBtcTransaction) 0 true).1 0 =
      [(2, 3, 2), (3, 3, 2), (4, 3, 3)] ∧
    (∃ p ∈ progressAudit .tx
        (insertTransactionsFromFile 2 2 2
          (List.replicate 3 emptyBtcTransaction) 0 true).1 0,
      p.2.2 < p.1 ∧ p.2.1 < p.1) := by
  have hrun : insertTransactionsFromFile 2 2 2
      (List.replicate 3 emptyBtcTransaction) 0 true =
      (txLoop 2 2 2 (List.replicate 3 emptyBtcTransaction) [] [] 0 3,
        true) := by
    simp [insertTransactionsFromFile, List.length_replicate]
  have t1 : txLoop 2 2 2 (List.replicate 3 emptyBtcTransaction) [] [] 0 3 =
      Ev.read 2 :: Ev.prepared .tx 2 :: Ev.progress 2 3 ::
        txLoop 2 2 2 (List.replicate 1 emptyBtcTransaction) [] [] 2 3 := by
    rw [txLoop_step _ _ _ _ _ _ _ _ (by norm_num)
      (by rw [List.length_replicate]; norm_num)]
    norm_num [List.take_replicate, List.drop_replicate,
      collect_replicate_empty, flushLoop_nil]
  have t2 : txLoop 2 2 2 (List.replicate 1 emptyBtcTransaction) [] [] 2 3 =
      [Ev.read 1, Ev.progress 3 3, Ev.direct .tx 1, Ev.progress 4 3] := by
    rw [txLoop_last _ _ _ _ _ _ _ _ (by norm_num)
      (by rw [List.length_replicate]; norm_num)]
    norm_num [collect_replicate_empty, collect_single_empty, flushLoop_nil,
      List.length_replicate]
  have htrace : (insertTransactionsFromFile 2 2 2
      (List.replicate 3 emptyBtcTransaction) 0 true).1 =
      [Ev.read 2, Ev.prepared .tx 2, Ev.progress 2 3,
        Ev.read 1, Ev.progress 3 3, Ev.direct .tx 1, Ev.progress 4 3] := by
    rw [hrun]
    rw [show (txLoop 2 2 2 (List.replicate 3 emptyBtcTransaction) [] [] 0 3,
        true).1 = txLoop 2 2 2 (List.replicate 3 emptyBtcTransaction) [] []
        0 3 from rfl]
    rw [t1, t2]
  refine ⟨htrace, ?_, ?_⟩
  · rw [htrace]
    decide
  · rw [htrace]
    decide

set_option maxRecDepth 4000 in
/-- C3 (code evaluated at the scenario): a 250-parent-row file, no prior
state, batch size 100.  The blocks loader behaves exactly as the scenario
says: two prepared writes of 100, one direct write of 50, callbacks
(100, 200, 250) against total 250.  The transactions loader issues the same
writes but invokes the callback 4 times, with cursors 100, 200, 250, 300 —
the third before the remaining 50 rows are committed and the fourth beyond
the file's 250-row total. -/
theorem claim_C3 :
    (insertBlocksFromFile 100 (List.replicate 250 ()) 0 true =
      ([Ev.read 100, Ev.prepared .block 100, Ev.progress 100 250,
        Ev.read 100, Ev.prepared .block 100, Ev.progress 200 250,
        Ev.read 50, Ev.direct .block 50, Ev.progress 250 250], true)) ∧
    ((insertTransactionsFromFile 100 100 100
        (List.replicate 250 emptyBtcTransaction) 0 true).1 =
      [Ev.read 100, Ev.prepared .tx 100, Ev.progress 100 250,
        Ev.read 100, Ev.prepared .tx 100, Ev.progress 200 250,
        Ev.read 50, Ev.progress 250 250, Ev.direct .tx 50,
        Ev.progress 300 250]) ∧
    cursors (insertTransactionsFromFile 100 100 100
        (List.replicate 250 emptyBtcTransaction) 0 true).1 =
      [100, 200, 250, 300] := by
  have b1 : blocksLoop 100 (List.replicate 250 ()) 0 250 =
      Ev.read 100 :: Ev.prepared .block 100 :: Ev.progress 100 250 ::
        blocksLoop 100 (List.replicate 150 ()) 100 250 := by
    rw [blocksLoop_step _ _ _ _ (by norm_num)
      (by rw [List.length_replicate]; norm_num)]
    norm_num [List.drop_replicate]
  have b2 : blocksLoop 100 (List.replicate 150 ()) 100 250 =
      Ev.read 100 :: Ev.prepared .block 100 :: Ev.progress 200 250 ::
        blocksLoop 100 (List.replicate 50 ()) 200 250 := by
    rw [blocksLoop_step _ _ _ _ (by norm_num)
      (by rw [List.length_replicate]; norm_num)]
    norm_num [List.drop_replicate]
  have b3 : blocksLoop 100 (List.replicate 50 ()) 200 250 =
      [Ev.read 50, Ev.direct .block 50, Ev.progress 250 250] := by
    rw [blocksLoop_last _ _ _ _ (by norm_num)
      (by rw [List.length_replicate]; norm_num)]
    norm_num [List.length_replicate]
  have s1 : txLoop 100 100 100 (List.replicate 250 emptyBtcTransaction)
      [] [] 0 250 =
      Ev.read 100 :: Ev.prepared .tx 100 :: Ev.progress 100 250 ::
        txLoop 100 100 100 (List.replicate 150 emptyBtcTransaction)
          [] [] 100 250 := by
    rw [txLoop_step _ _ _ _ _ _ _ _ (by norm_num)
      (by rw [List.length_replicate]; norm_num)]
    rw [List.take_replicate, List.drop_replicate,
      show (min 100 250 : Nat) = 100 from by decide,
      collect_replicate_empty]
    norm_num [flushLoop_nil]
  have s2 : txLoop 100 100 100 (List.replicate 150 emptyBtcTransaction)
      [] [] 100 250 =
      Ev.read 100 :: Ev.prepared .tx 100 :: Ev.progress 200 250 ::
        txLoop 100 100 100 (List.replicate 50 emptyBtcTransaction)
          [] [] 200 250 := by
    rw [txLoop_step _ _ _ _ _ _ _ _ (by norm_num)
      (by rw [List.length_replicate]; norm_num)]
    rw [List.take_replicate, List.drop_replicate,
      show (min 100 150 : Nat) = 100 from by decide,
      collect_replicate_empty]
    norm_num [flushLoop_nil]
  have s3 : txLoop 100 100 100 (List.replicate 50 emptyBtcTransaction)
      [] [] 200 250 =
      [Ev.read 50, Ev.progress 250 250, Ev.direct .tx 50,
        Ev.progress 300 250] := by
    rw [txLoop_last _ _ _ _ _ _ _ _ (by norm_num)
      (by rw [List.length_replicate]; norm_num)]
    norm_num [collect_replicate_empty, flushLoop_nil, List.length_replicate]
  have htraceT : (insertTransactionsFromFile 100 100 100
      (List.replicate 250 emptyBtcTransaction) 0 true).1 =
      [Ev.read 100, Ev.prepared .tx 100, Ev.progress 100 250,
        Ev.read 100, Ev.prepared .tx 100, Ev.progress 200 250,
        Ev.read 50, Ev.progress 250 250, Ev.direct .tx 50,
        Ev.progress 300 250] := by
    rw [show insertTransactionsFromFile 100 100 100
        (List.replicate 250 emptyBtcTransaction) 0 true =
        (txLoop 100 100 100 (List.replicate 250 emptyBtcTransaction)
          [] [] 0 250, true) from rfl]
    rw [show (txLoop 100 100 100 (List.replicate 250 emptyBtcTransaction)
        [] [] 0 250, true).1 = txLoop 100 100 100
        (List.replicate 250 emptyBtcTransaction) [] [] 0 250 from rfl]
    rw [s1, s2, s3]
  refine ⟨?_, htraceT, ?_⟩
  · rw [show insertBlocksFromFile 100 (List.replicate 250 ()) 0 true =
        (blocksLoop 100 (List.replicate 250 ()) 0 250, true) from rfl]
    rw [b1, b2, b3]
  · rw [htraceT]
    decide

/-!
## Claim C9 — resumption
-/

set_option maxRecDepth 4000 in
/-- C9: when a file is loaded with a non-zero start cursor, the single
`SeekToRow` attempt happens before any read (on success the trace begins
with the seek and then immediately a read); a seek failure aborts that
file's load at once — the trace is exactly the one seek event, with no
read, no write and no progress callback, and no second seek attempt.  The
cursor values reported after resuming equal the resumption start plus the
rows processed since: one report of `start + (i+1)·batchSize` per full
batch, plus a final `start + remaining` when a partial remainder exists.
In the scenario {total 250, cursor 100} with batch size 100, the reported
cursors are 200 then 250 — not starting at 100. -/
theorem claim_C9 :
    (∀ {α : Type} (batchSize : Nat) (file : List α) (startRow : Nat),
      0 < batchSize → 0 < startRow →
      (insertBlocksFromFile batchSize file startRow false =
        ([Ev.seek startRow], false)) ∧
      (∃ rest, (insertBlocksFromFile batchSize file startRow true).1 =
        Ev.seek startRow ::
          Ev.read (min (file.length - startRow) batchSize) :: rest) ∧
      (cursors (insertBlocksFromFile batchSize file startRow true).1 =
        ((List.range ((file.length - startRow) / batchSize)).map
          fun i => startRow + (i + 1) * batchSize) ++
          (if (file.length - startRow) % batchSize = 0 then []
           else [startRow + (file.length - startRow)]))) ∧
    cursors (insertBlocksFromFile 100 (List.replicate 250 ()) 100 true).1 =
      [200, 250] := by
  constructor
  · intro α batchSize file startRow hb hs
    have hrunF : insertBlocksFromFile batchSize file startRow false =
        ([Ev.seek startRow], false) := by
      simp [insertBlocksFromFile, hs]
    have hrunT : (insertBlocksFromFile batchSize file startRow true :
        List Ev × Bool) =
        (Ev.seek startRow ::
          blocksLoop batchSize (file.drop startRow) startRow file.length,
          true) := by
      simp [insertBlocksFromFile, hs]
    refine ⟨hrunF, ?_, ?_⟩
    · obtain ⟨rest, hrest⟩ :=
        blocksLoop_head batchSize (file.drop startRow) startRow
          file.length hb
      refine ⟨rest, ?_⟩
      rw [hrunT]
      rw [show (Ev.seek startRow ::
        blocksLoop batchSize (file.drop startRow) startRow file.length,
          true).1 = Ev.seek startRow ::
        blocksLoop batchSize (file.drop startRow) startRow file.length
        from rfl]
      rw [hrest, List.length_drop]
    · rw [hrunT]
      rw [show (Ev.seek startRow ::
        blocksLoop batchSize (file.drop startRow) startRow file.length,
          true).1 = Ev.seek startRow ::
        blocksLoop batchSize (file.drop startRow) startRow file.length
        from rfl]
      rw [cursors_cons_seek]
      rw [blocksLoop_cursors batchSize hb (file.drop startRow) startRow
        file.length]
      rw [List.length_drop]
  · rw [show (insertBlocksFromFile 100 (List.replicate 250 ()) 100 true).1 =
      Ev.seek 100 ::
        blocksLoop 100 ((List.replicate 250 ()).drop 100) 100 250 from rfl]
    rw [cursors_cons_seek, List.drop_replicate]
    rw [blocksLoop_cursors 100 (by norm_num) _ 100 250]
    rw [List.length_replicate]
    decide

/-- Witness for C9: a 3-row file resumed from row 1 at batch size 2 whose
seek fails produces exactly one seek attempt and an immediate error. -/
theorem claim_C9_witness :
    insertBlocksFromFile 2 (List.replicate 3 ()) 1 false =
      ([Ev.seek 1], false) :=
  (claim_C9.1 2 (List.replicate 3 ()) 1 (by norm_num) (by norm_num)).1

